import Mathlib

/-!
Verification development for the nyc-rep-showtimes repository.

The two source files, `src/fetch_metrograph.py` and
`src/scripts/fetch_filmforum.py`, are shallowly embedded below: strings
become `List Char`, the Python regular-expression searches become
executable recursive scanners with the same leftmost-match semantics,
Python dicts become association lists with the corresponding insertion
semantics, and the stateful `main` loops become explicit folds over an
input structure that stands for the parsed BeautifulSoup tree.
-/

/-- Strings from the Python sources are modelled as lists of characters. -/
abbrev Str := List Char

/-- The default whitespace set stripped by Python `str.strip()` and matched
by the regex class `\s` (ASCII fragment). -/
def isPySpace (c : Char) : Bool :=
  decide (c = ' ' ∨ c = '\t' ∨ c = '\n' ∨ c = '\r' ∨ c = '\x0b' ∨ c = '\x0c')

/-- ASCII decimal digit, the regex class `\d` (ASCII fragment). -/
def isDigitCh (c : Char) : Bool :=
  decide (c = '0' ∨ c = '1' ∨ c = '2' ∨ c = '3' ∨ c = '4' ∨
          c = '5' ∨ c = '6' ∨ c = '7' ∨ c = '8' ∨ c = '9')

def isAsciiLower (c : Char) : Bool := decide ('a' ≤ c ∧ c ≤ 'z')

def isAsciiUpper (c : Char) : Bool := decide ('A' ≤ c ∧ c ≤ 'Z')

/-- The regex class `\w` (ASCII fragment): letters, digits, underscore. -/
def isWordChar (c : Char) : Bool :=
  isDigitCh c || isAsciiLower c || isAsciiUpper c || decide (c = '_')

/-- Numeric value of a decimal digit character. -/
def digitVal (c : Char) : Nat := c.toNat - 48

/-- Python `int` applied to a string of decimal digits. -/
def digitsToNat (l : Str) : Nat := l.foldl (fun a c => 10 * a + digitVal c) 0

/-- Python `str.strip()`: drop leading and trailing whitespace. -/
def pyStrip (l : Str) : Str :=
  ((l.dropWhile isPySpace).reverse.dropWhile isPySpace).reverse

/-- Python `str.split(sep)` for a one-character separator: no collapsing of
adjacent separators, and the empty string splits to `[""]`. -/
def splitOnChar (sep : Char) : Str → List Str
  | [] => [[]]
  | c :: rest =>
    if c = sep then [] :: splitOnChar sep rest
    else
      match splitOnChar sep rest with
      | [] => [[c]]
      | h :: t => (c :: h) :: t

/-- Does the regex word boundary `\b` hold between the previous character
(`none` at the start of the string) and a following word character? -/
def nonWordBefore : Option Char → Bool
  | none => true
  | some c => !(isWordChar c)

/-- Does `\b` hold between a preceding word character and the rest of the
string (`[]` at the end of the string)? -/
def nonWordAfter : Str → Bool
  | [] => true
  | c :: _ => !(isWordChar c)

/-- `re.search(r"\b(\d{4})\b", s)` from `parse_metadata`
(src/fetch_metrograph.py line 25): leftmost four-digit token delimited by
word boundaries, returned through Python `int`. The first argument is the
character preceding the current position. -/
def searchYearAux : Option Char → Str → Option Nat
  | _, [] => none
  | prev, c1 :: rest =>
    match rest with
    | c2 :: c3 :: c4 :: rest2 =>
      if nonWordBefore prev && isDigitCh c1 && isDigitCh c2 &&
         isDigitCh c3 && isDigitCh c4 && nonWordAfter rest2
      then some (digitsToNat [c1, c2, c3, c4])
      else searchYearAux (some c1) rest
    | _ => searchYearAux (some c1) rest

/-- `re.search(r"(\d+)\s*min", s)` from `parse_metadata`
(src/fetch_metrograph.py line 30): leftmost maximal digit run followed by
optional whitespace and the literal `min`, returned through Python `int`. -/
def searchRuntime : Str → Option Nat
  | [] => none
  | c :: rest =>
    if isDigitCh c then
      if (((c :: rest).dropWhile isDigitCh).dropWhile isPySpace).take 3 =
         ('m' :: 'i' :: 'n' :: []) then
        some (digitsToNat ((c :: rest).takeWhile isDigitCh))
      else searchRuntime rest
    else searchRuntime rest

/-- `parse_metadata` (src/fetch_metrograph.py lines 12-35): split the
metadata text on `/`, strip each part, and extract director, year,
runtime and format positionally. -/
def parse_metadata (text : Str) : Option Str × Option Nat × Option Nat × Option Str :=
  let parts := (splitOnChar '/' text).map pyStrip
  let director :=
    match parts.head? with
    | some p => if p = [] then none else some p
    | none => none
  let year :=
    match parts.get? 1 with
    | some p => searchYearAux none p
    | none => none
  let rt :=
    match parts.get? 2 with
    | some p => searchRuntime p
    | none => none
  let fmt :=
    match parts.get? 3 with
    | some p => if p = [] then none else some p
    | none => none
  (director, year, rt, fmt)

/-- The anchored time prefix `^(\d{1,2}:\d{2})` of the Film Forum time
regex (src/scripts/fetch_filmforum.py line 69): on success, the matched
time substring and the remainder of the string. -/
def parseTimeHead : Str → Option (Str × Str)
  | c1 :: c2 :: rest =>
    if isDigitCh c1 then
      if c2 = ':' then
        match rest with
        | m1 :: m2 :: rest2 =>
          if isDigitCh m1 && isDigitCh m2 then some ([c1, ':', m1, m2], rest2)
          else none
        | _ => none
      else if isDigitCh c2 then
        match rest with
        | ':' :: m1 :: m2 :: rest2 =>
          if isDigitCh m1 && isDigitCh m2 then some ([c1, c2, ':', m1, m2], rest2)
          else none
        | _ => none
      else none
    else none
  | _ => none

/-- The anchored suffix `(?:\(([^)]+)\))?$` of the Film Forum time regex:
either the end of the string (no tag) or a parenthesized non-empty tag
followed by the end of the string. -/
def parseTagTail : Str → Option (Option Str)
  | [] => some none
  | '(' :: r =>
    if (r.takeWhile (fun c => !decide (c = ')'))).isEmpty then none
    else if r.dropWhile (fun c => !decide (c = ')')) = [')'] then
      some (some (r.takeWhile (fun c => !decide (c = ')'))))
    else none
  | _ => none

/-- `parse_time_and_tags` (src/scripts/fetch_filmforum.py lines 67-76):
strip the raw text, match it against `^(\d{1,2}:\d{2})(?:\(([^)]+)\))?$`,
and return (time, tags, notes). -/
def parse_time_and_tags (raw : Str) : Option Str × List Str × Option Str :=
  let stripped := pyStrip raw
  match parseTimeHead stripped with
  | none => (none, [], some stripped)
  | some (t, rest) =>
    match parseTagTail rest with
    | none => (none, [], some stripped)
    | some none => (some t, [], none)
    | some (some tag) => (some t, [tag], some tag)

/-- Whether a string matches the full Film Forum time-and-tag pattern
`^(\d{1,2}:\d{2})(?:\(([^)]+)\))?$` as written, with no stripping. -/
def matchesTimeTag (s : Str) : Bool :=
  match parseTimeHead s with
  | none => false
  | some (_, rest) => (parseTagTail rest).isSome

/-- `re.search(r"vista_film_id=(\d+)", url)` (src/fetch_metrograph.py
line 100): leftmost occurrence of the literal parameter name followed by
at least one digit; the captured group is the maximal digit run. -/
def searchVista : Str → Option Str
  | [] => none
  | c :: rest =>
    if (c :: rest).take 14 = ("vista_film_id=".data) then
      if (((c :: rest).drop 14).takeWhile isDigitCh).isEmpty then searchVista rest
      else some (((c :: rest).drop 14).takeWhile isDigitCh)
    else searchVista rest

/-- `re.search(r"/film/([^/?#]+)", url)` (src/scripts/fetch_filmforum.py
line 33): leftmost occurrence of `/film/` followed by at least one
character outside `/?#`; the captured group is the maximal such run. -/
def searchFilmSlug : Str → Option Str
  | [] => none
  | c :: rest =>
    if (c :: rest).take 6 = ("/film/".data) then
      if (((c :: rest).drop 6).takeWhile
            (fun x => !decide (x = '/' ∨ x = '?' ∨ x = '#'))).isEmpty then
        searchFilmSlug rest
      else some (((c :: rest).drop 6).takeWhile
            (fun x => !decide (x = '/' ∨ x = '?' ∨ x = '#')))
    else searchFilmSlug rest

/-- Replace every maximal run of characters satisfying `p` by the single
character `rep`; the Boolean records whether the previous character was
inside such a run.  This is `re.sub(p+, rep, s)`. -/
def subRunsAux (p : Char → Bool) (rep : Char) : Bool → Str → Str
  | _, [] => []
  | inRun, c :: rest =>
    if p c then
      if inRun then subRunsAux p rep true rest
      else rep :: subRunsAux p rep true rest
    else c :: subRunsAux p rep false rest

def subRuns (p : Char → Bool) (rep : Char) (s : Str) : Str :=
  subRunsAux p rep false s

/-- Python `str.strip(c)` for a one-character argument. -/
def stripChar (c : Char) (l : Str) : Str :=
  ((l.dropWhile (fun x => decide (x = c))).reverse.dropWhile
    (fun x => decide (x = c))).reverse

/-- Python `str.lower()` restricted to ASCII letters. -/
def lowerAscii (c : Char) : Char := if isAsciiUpper c then Char.ofNat (c.toNat + 32) else c

/-- `re.sub(r"\W+", "-", title.lower()).strip("-")`
(src/fetch_metrograph.py line 101): the synthesized title identifier. -/
def slugifyTitle (title : Str) : Str :=
  stripChar '-' (subRuns (fun c => !isWordChar c) '-' (title.map lowerAscii))

/-- `re.sub(r"[^a-z0-9]+", "-", url.lower()).strip("-")`
(src/scripts/fetch_filmforum.py line 36): the normalized-URL fallback. -/
def slugifyUrlFF (url : Str) : Str :=
  stripChar '-'
    (subRuns (fun c => !(isAsciiLower c || isDigitCh c)) '-' (url.map lowerAscii))

/-- The Metrograph film identifier (src/fetch_metrograph.py lines 100-101):
the `vista_film_id` URL parameter when present, otherwise the normalized
title. -/
def metrograph_film_id (detail_url title : Str) : Str :=
  match searchVista detail_url with
  | some ds => ds
  | none => slugifyTitle title

/-- `slug_from_url` (src/scripts/fetch_filmforum.py lines 32-36): the
`/film/` path segment when present (stripped), otherwise the normalized
URL. -/
def slug_from_url (url : Str) : Str :=
  match searchFilmSlug url with
  | some seg => pyStrip seg
  | none => slugifyUrlFF url

/-- Modelled from the spec, section 4.3(c), for comparison with the code:
the claimed three-tier identifier chain over (detail URL, title) — the
embedded ticketing-system ID, failing that a path-segment slug from the
URL, failing that the normalized title. -/
def specThreeTierFilmId (url title : Str) : Str :=
  match searchVista url with
  | some ds => ds
  | none =>
    match searchFilmSlug url with
    | some seg => pyStrip seg
    | none => slugifyTitle title

/-- A `datetime.date` value as constructed by the scripts. -/
structure PyDate where
  year : Nat
  month : Nat
  day : Nat
deriving DecidableEq

/-- The Gregorian leap-year rule used by `datetime.date`. -/
def isLeap (y : Nat) : Bool :=
  y % 4 = 0 && (y % 100 ≠ 0 || y % 400 = 0)

/-- Number of days in a month, as validated by the `datetime.date`
constructor. -/
def daysInMonth (y m : Nat) : Nat :=
  if m = 2 then (if isLeap y then 29 else 28)
  else if m = 4 ∨ m = 6 ∨ m = 9 ∨ m = 11 then 30
  else 31

/-- The fallible `datetime.date(year, month, day)` constructor: `none`
models the `ValueError` raised on an out-of-range year, month or day. -/
def mkDate (y m d : Nat) : Option PyDate :=
  if 1 ≤ y ∧ y ≤ 9999 ∧ 1 ≤ m ∧ m ≤ 12 ∧ 1 ≤ d ∧ d ≤ daysInMonth y m then
    some ⟨y, m, d⟩
  else none

/-- One month forward for the (year, month) cursor of `infer_week_dates`
(src/scripts/fetch_filmforum.py lines 58-62). -/
def stepCursor (year month : Nat) : Nat × Nat :=
  if month = 12 then (year + 1, 1) else (year, month + 1)

/-- The cursor update at the top of the loop body of `infer_week_dates`
(src/scripts/fetch_filmforum.py lines 57-62): advance by one month exactly
when the current day number is less than the previous one. -/
def inferStep (year month : Nat) (prev : Option Nat) (d : Nat) : Nat × Nat :=
  if (match prev with | some p => decide (d < p) | none => false)
  then stepCursor year month else (year, month)

/-- The loop of `infer_week_dates` (src/scripts/fetch_filmforum.py lines
54-64): `prev` is the previous day number; a `none` result models the
uncaught `ValueError` from `date(year, month, d)`. -/
def inferAux (year month : Nat) (prev : Option Nat) : List Nat → Option (List PyDate)
  | [] => some []
  | d :: ds =>
    match mkDate (inferStep year month prev d).1 (inferStep year month prev d).2 d with
    | none => none
    | some dt =>
      (inferAux (inferStep year month prev d).1 (inferStep year month prev d).2
        (some d) ds).map (fun l => dt :: l)

/-- `infer_week_dates` (src/scripts/fetch_filmforum.py lines 49-65). -/
def infer_week_dates (day_numbers : List Nat) (today_local : PyDate) :
    Option (List PyDate) :=
  if day_numbers.isEmpty then some []
  else inferAux today_local.year today_local.month none day_numbers

/-- `re.search(r"\b(\d{1,2})\b", s)` from `extract_day_number_from_panel`
(src/scripts/fetch_filmforum.py line 41): leftmost one-or-two digit token
delimited by word boundaries, greedy on length. -/
def searchDay12 : Option Char → Str → Option Nat
  | _, [] => none
  | prev, c1 :: rest =>
    if nonWordBefore prev && isDigitCh c1 then
      match rest with
      | [] => some (digitsToNat [c1])
      | c2 :: rest2 =>
        if isDigitCh c2 then
          if nonWordAfter rest2 then some (digitsToNat [c1, c2])
          else searchDay12 (some c1) rest
        else if isWordChar c2 then searchDay12 (some c1) rest
        else some (digitsToNat [c1])
    else searchDay12 (some c1) rest

/-- `extract_day_number_from_panel` (src/scripts/fetch_filmforum.py lines
38-47), over the panel's HTML comment strings: the first comment holding a
one-or-two digit token wins. -/
def extract_day_number_from_panel : List Str → Option Nat
  | [] => none
  | c :: cs =>
    match searchDay12 none c with
    | some n => some n
    | none => extract_day_number_from_panel cs

/-- `clean_title` (src/scripts/fetch_filmforum.py lines 29-30): strip,
then collapse whitespace runs to a single space. -/
def clean_title (text : Str) : Str :=
  subRuns isPySpace ' ' (pyStrip text)

/-- Fuel-indexed body of Python `str.replace(pat, rep)`: scans left to
right, replacing non-overlapping occurrences.  The fuel is an upper bound
on the number of characters still to be consumed. -/
def replaceAllGo (pat rep : Str) : Nat → Str → Str
  | 0, s => s
  | _ + 1, [] => []
  | fuel + 1, c :: rest =>
    if pat ≠ [] ∧ (c :: rest).take pat.length = pat then
      rep ++ replaceAllGo pat rep fuel ((c :: rest).drop pat.length)
    else c :: replaceAllGo pat rep fuel rest

/-- Python `str.replace(pat, rep)` for a non-empty pattern. -/
def replaceAllStr (pat rep s : Str) : Str :=
  replaceAllGo pat rep s.length s

/-- `clean_href` (src/fetch_metrograph.py lines 37-41): `None` and the
empty string map to `none`; otherwise `&amp;` is decoded to `&`. -/
def clean_href : Option Str → Option Str
  | none => none
  | some h => if h = [] then none else some (replaceAllStr ("&amp;".data) ("&".data) h)

/-- Fuel-indexed decimal digits of a natural number, most significant
first. -/
def natDigitsGo : Nat → Nat → Str
  | 0, _ => []
  | fuel + 1, n =>
    if n < 10 then [Nat.digitChar n]
    else natDigitsGo fuel (n / 10) ++ [Nat.digitChar (n % 10)]

def natDigits (n : Nat) : Str := natDigitsGo (n + 1) n

/-- Zero-pad a digit string on the left to width `w`. -/
def padZeros (w : Nat) (s : Str) : Str :=
  List.replicate (w - s.length) '0' ++ s

/-- `date.isoformat()`: the `YYYY-MM-DD` rendering used for the Film Forum
screening dates (src/scripts/fetch_filmforum.py line 201). -/
def isoDate (d : PyDate) : Str :=
  padZeros 4 (natDigits d.year) ++ ('-' :: padZeros 2 (natDigits d.month)) ++
    ('-' :: padZeros 2 (natDigits d.day))

/-- Lookup in an association list modelling a Python dict. -/
def alookup {β : Type} (k : Str) : List (Str × β) → Option β
  | [] => none
  | (k', v) :: t => if k' = k then some v else alookup k t

/-- Python dict assignment `m[k] = v`: overwrite in place when the key is
present (keeping its position), append otherwise. -/
def upsert {β : Type} (k : Str) (v : β) : List (Str × β) → List (Str × β)
  | [] => [(k, v)]
  | (k', v') :: t => if k' = k then (k, v) :: t else (k', v') :: upsert k v t

/-- The Film Forum `if film_id not in films: films[film_id] = ...` idiom
(src/scripts/fetch_filmforum.py lines 182-191): insert only when absent. -/
def insertIfAbsent {β : Type} (k : Str) (v : β) (m : List (Str × β)) :
    List (Str × β) :=
  if (alookup k m).isSome then m else m ++ [(k, v)]

/-- Outcome of one pipeline run: keep the prior output and exit 0, die with
a non-zero exit (an uncaught exception), or write a fresh document. -/
inductive PipelineOutcome (D : Type) where
  | softKeepPrior
  | fatal
  | wrote (doc : D)
deriving DecidableEq

/-- Whether the process exits with code 0 under the given outcome. -/
def PipelineOutcome.exitZero {D : Type} : PipelineOutcome D → Bool
  | .softKeepPrior => true
  | .fatal => false
  | .wrote _ => true

/-- Whether the run replaced the output file. -/
def PipelineOutcome.wroteFile {D : Type} : PipelineOutcome D → Bool
  | .softKeepPrior => false
  | .fatal => false
  | .wrote _ => true

/-- An `<a>` element as consumed by the scripts: its `href` attribute and
its rendered text. -/
structure HtmlAnchor where
  href : Option Str
  text : Str
deriving DecidableEq

/-- One showtime `<a>` under `.showtimes` (src/fetch_metrograph.py lines
126-131): rendered text, class list, `href`. -/
structure MGSt where
  text : Str
  classes : List Str
  href : Option Str
deriving DecidableEq

/-- One `.item.film-thumbnail.homepage-in-theater-movie` element
(src/fetch_metrograph.py lines 91-112): the `a.title` anchor, the poster
`img` with its optional `src`, the metadata and description texts, and the
showtime anchors. -/
structure MGItem where
  titleA : Option HtmlAnchor
  posterSrc : Option (Option Str)
  metaText : Option Str
  descText : Option Str
  showtimes : List MGSt
deriving DecidableEq

/-- One `.calendar-list-day` element (src/fetch_metrograph.py lines
69-91): its `id` attribute, class list, rendered text (the closure note)
and film items. -/
structure MGDay where
  idAttr : Str
  classes : List Str
  dayText : Str
  items : List MGItem
deriving DecidableEq

/-- A Metrograph film record (src/fetch_metrograph.py lines 114-123). -/
structure MGFilm where
  film_id : Str
  title : Str
  director : Option Str
  year : Option Nat
  runtime_min : Option Nat
  format : Option Str
  poster_url : Option Str
  detail_url : Str
deriving DecidableEq

/-- A Metrograph screening row.  Optional fields model JSON keys that are
present only on some records: `note` appears only on closed-day records
(src/fetch_metrograph.py lines 82-87), the others only on showtime records
(lines 135-143). -/
structure MGScreening where
  theater_id : Str
  date : Str
  time : Option Str
  status : Str
  ticket_url : Option Str
  film_id : Option Str
  notes : Option Str
  note : Option Str
deriving DecidableEq

def BASE : Str := "https://metrograph.com".data

def hasHttpScheme (h : Str) : Bool :=
  ("http://".data).isPrefixOf h || ("https://".data).isPrefixOf h

/-- Model of `urllib.parse.urljoin(BASE, href)` (src/fetch_metrograph.py
line 97) for the href shapes that occur on the page: empty, absolute
http(s), scheme-relative, root-relative and bare relative references
against the path-less base `https://metrograph.com`. -/
def urljoinBase (href : Str) : Str :=
  if href = [] then BASE
  else if hasHttpScheme href then href
  else if ("//".data).isPrefixOf href then ("https:".data) ++ href
  else if href.head? = some '/' then BASE ++ href
  else BASE ++ ('/' :: href)

/-- The day guard of the Metrograph loop (src/fetch_metrograph.py lines
70-76): require the `calendar-list-day-` id, strip it with
`str.replace`, and reject the `none` and empty dates.  Returns the
`date_str` when the day is processed. -/
def mgDayGuard (d : MGDay) : Option Str :=
  if ("calendar-list-day-".data).isPrefixOf d.idAttr then
    if replaceAllStr ("calendar-list-day-".data) [] d.idAttr = ("none".data) ∨
       replaceAllStr ("calendar-list-day-".data) [] d.idAttr = [] then none
    else some (replaceAllStr ("calendar-list-day-".data) [] d.idAttr)
  else none

/-- The synthetic closed-day record (src/fetch_metrograph.py lines
82-87). -/
def mgClosedRecord (dateStr note : Str) : MGScreening :=
  { theater_id := "metrograph".data, date := dateStr, time := none,
    status := "closed".data, ticket_url := none, film_id := none,
    notes := none, note := some note }

/-- One showtime record (src/fetch_metrograph.py lines 126-143). -/
def mgScreeningOf (dateStr fid : Str) (notes : Option Str) (st : MGSt) :
    MGScreening :=
  { theater_id := "metrograph".data, date := dateStr, time := some st.text,
    status := if ("sold_out".data) ∈ st.classes then "sold_out".data
              else "available".data,
    ticket_url := if ("sold_out".data) ∈ st.classes then none
                  else clean_href st.href,
    film_id := some fid, notes := notes, note := none }

/-- The film record built for one item (src/fetch_metrograph.py lines
96-123), given its title anchor. -/
def mgFilmOf (item : MGItem) (a : HtmlAnchor) : Str × MGFilm :=
  let title := a.text
  let detail_url := urljoinBase (a.href.getD [])
  let fid := metrograph_film_id detail_url title
  let meta := match item.metaText with
              | some t => parse_metadata t
              | none => (none, none, none, none)
  (fid, { film_id := fid, title := title, director := meta.1,
          year := meta.2.1, runtime_min := meta.2.2.1, format := meta.2.2.2,
          poster_url := item.posterSrc.bind id, detail_url := detail_url })

/-- Accumulated output document state: the `films` dict and the
`screenings` list. -/
structure MGState where
  films : List (Str × MGFilm)
  screenings : List MGScreening
deriving DecidableEq

/-- Processing of one film item (src/fetch_metrograph.py lines 91-143):
skip items without a title anchor, overwrite the film record, and append
one screening per showtime anchor. -/
def mgProcessItem (dateStr : Str) (st : MGState) (item : MGItem) : MGState :=
  match item.titleA with
  | none => st
  | some a =>
    { films := upsert (mgFilmOf item a).1 (mgFilmOf item a).2 st.films,
      screenings := st.screenings ++
        item.showtimes.map (mgScreeningOf dateStr (mgFilmOf item a).1 item.descText) }

/-- Processing of one calendar day (src/fetch_metrograph.py lines
69-143). -/
def mgProcessDay (st : MGState) (d : MGDay) : MGState :=
  match mgDayGuard d with
  | none => st
  | some dateStr =>
    if ("closed".data) ∈ d.classes then
      { st with screenings := st.screenings ++ [mgClosedRecord dateStr d.dayText] }
    else d.items.foldl (mgProcessItem dateStr) st

/-- The Metrograph assembler: the whole day loop starting from the empty
document (src/fetch_metrograph.py lines 53-143). -/
def mgAssemble (days : List MGDay) : MGState :=
  days.foldl mgProcessDay ⟨[], []⟩

/-- Input environment of the Metrograph run: the fetched day list (`none`
models a `requests` exception or bad HTTP status) and whether a previous
output file exists. -/
structure MGEnv where
  fetch : Option (List MGDay)
  priorExists : Bool
deriving DecidableEq

/-- Control flow of the Metrograph `main` (src/fetch_metrograph.py lines
43-147): the fetch at lines 44-49 is not wrapped in any try/except, so a
fetch failure is an uncaught exception — a non-zero exit with nothing
written — regardless of `priorExists`. -/
def metrograph_main (env : MGEnv) : PipelineOutcome MGState :=
  match env.fetch with
  | none => .fatal
  | some days => .wrote (mgAssemble days)

/-- A `<strong>` element in a Film Forum showtimes row, holding an
optional title anchor (src/scripts/fetch_filmforum.py lines 162-167). -/
structure FFStrong where
  a : Option HtmlAnchor
deriving DecidableEq

/-- One `<p>` row of a Film Forum day panel: its optional `<strong>`
element and the rendered texts of its `<span>` time slots. -/
structure FFRow where
  strong : Option FFStrong
  spans : List Str
deriving DecidableEq

/-- One day panel `div[id^='tabs-']`: its HTML comment strings (holding
the day-of-month number) and its rows. -/
structure FFPanel where
  comments : List Str
  rows : List FFRow
deriving DecidableEq

/-- The `div.module.showtimes-table` subtree. -/
structure FFModule where
  panels : List FFPanel
deriving DecidableEq

/-- A fetched Film Forum page: `module` is `none` when the expected anchor
markup is absent. -/
structure FFPage where
  module : Option FFModule
deriving DecidableEq

/-- A Film Forum film record (src/scripts/fetch_filmforum.py lines
183-191). -/
structure FFFilm where
  title : Str
  director : Option Str
  year : Option Nat
  runtime : Option Nat
  format : Option Str
  poster_url : Option Str
  detail_url : Str
deriving DecidableEq

/-- A Film Forum screening record (src/scripts/fetch_filmforum.py lines
199-209); `tags` models the key added only when the tag list is
non-empty. -/
structure FFScreening where
  theater_id : Str
  date : Str
  time : Str
  status : Str
  ticket_url : Option Str
  film_id : Str
  notes : Option Str
  tags : Option (List Str)
deriving DecidableEq

structure FFState where
  films : List (Str × FFFilm)
  screenings : List FFScreening
deriving DecidableEq

/-- The detail URL of a row (src/scripts/fetch_filmforum.py lines
169-173): strip the href, and prepend the site origin to root-relative
references. -/
def ffDetailUrl (u : Str) : Str :=
  if u.head? = some '/' then ("https://filmforum.org".data) ++ u else u

/-- The screenings contributed by the span texts of one row
(src/scripts/fetch_filmforum.py lines 193-211): spans whose text does not
parse as a time are skipped. -/
def ffRowScreenings (pd : PyDate) (fid : Str) (spans : List Str) :
    List FFScreening :=
  spans.filterMap (fun sp =>
    match parse_time_and_tags sp with
    | (none, _, _) => none
    | (some t, tags, note) =>
      some { theater_id := "filmforum".data, date := isoDate pd, time := t,
             status := "available".data, ticket_url := none, film_id := fid,
             notes := note, tags := if tags.isEmpty then none else some tags })

/-- Processing of one row (src/scripts/fetch_filmforum.py lines 161-211):
skip rows without `strong`/`a`, an empty href, or no spans; insert the
film only when absent; append one screening per parsed span. -/
def ffProcessRow (pd : PyDate) (st : FFState) (row : FFRow) : FFState :=
  match row.strong with
  | none => st
  | some strg =>
    match strg.a with
    | none => st
    | some a =>
      if pyStrip (a.href.getD []) = [] then st
      else
        if row.spans.isEmpty then st
        else
          { films := insertIfAbsent (slug_from_url (ffDetailUrl (pyStrip (a.href.getD []))))
              { title := clean_title a.text, director := none, year := none,
                runtime := none, format := none, poster_url := none,
                detail_url := ffDetailUrl (pyStrip (a.href.getD [])) } st.films,
            screenings := st.screenings ++
              ffRowScreenings pd (slug_from_url (ffDetailUrl (pyStrip (a.href.getD []))))
                row.spans }

/-- Processing of one (panel, date) pair (src/scripts/fetch_filmforum.py
lines 160-211). -/
def ffProcessPanel (st : FFState) (pair : FFPanel × PyDate) : FFState :=
  pair.1.rows.foldl (ffProcessRow pair.2) st

/-- The Film Forum assembler over the zipped (panel, date) list. -/
def ffAssemble (pairs : List (FFPanel × PyDate)) : FFState :=
  pairs.foldl ffProcessPanel ⟨[], []⟩

/-- The day-number collection loop (src/scripts/fetch_filmforum.py lines
142-152): `none` as soon as one panel has no day-of-month comment. -/
def collectDayNumbers : List FFPanel → Option (List Nat)
  | [] => some []
  | p :: ps =>
    match extract_day_number_from_panel p.comments with
    | none => none
    | some n => (collectDayNumbers ps).map (fun t => n :: t)

/-- Input environment of the Film Forum run: the fetched page (`none`
models retry exhaustion in `fetch_html`), whether `docs/filmforum.json`
already exists, and the site-local current date. -/
structure FFEnv where
  fetch : Option FFPage
  priorExists : Bool
  today : PyDate
deriving DecidableEq

/-- Control flow of the Film Forum `main` (src/scripts/fetch_filmforum.py
lines 101-226): every fetch/layout failure degrades to a soft success when
a prior output exists and is fatal otherwise; an invalid inferred date
(uncaught `ValueError` from `infer_week_dates`) is fatal unconditionally;
otherwise the assembled document is written. -/
def filmforum_main (env : FFEnv) : PipelineOutcome FFState :=
  match env.fetch with
  | none => if env.priorExists then .softKeepPrior else .fatal
  | some page =>
    match page.module with
    | none => if env.priorExists then .softKeepPrior else .fatal
    | some md =>
      if md.panels.isEmpty then
        (if env.priorExists then .softKeepPrior else .fatal)
      else
        match collectDayNumbers md.panels with
        | none => if env.priorExists then .softKeepPrior else .fatal
        | some dns =>
          match infer_week_dates dns env.today with
          | none => .fatal
          | some dates => .wrote (ffAssemble (md.panels.zip dates))

theorem dropWhileConsFalse {p : Char → Bool} {c : Char} {t : Str}
    (h : p c = false) : (c :: t).dropWhile p = c :: t := by
  simp [List.dropWhile_cons, h]

theorem dropWhileAppendAll {p : Char → Bool} {a b : Str}
    (h : ∀ x ∈ a, p x = true) :
    (a ++ b).dropWhile p = b.dropWhile p := by
  induction a with
  | nil => rfl
  | cons c t ih =>
    simp only [List.cons_append, List.dropWhile_cons, h c (List.mem_cons_self c t),
      if_true]
    exact ih (fun x hx => h x (List.mem_cons_of_mem c hx))

theorem dropWhileAllTrue {p : Char → Bool} {a : Str}
    (h : ∀ x ∈ a, p x = true) : a.dropWhile p = [] := by
  have h2 := dropWhileAppendAll (b := []) h
  simpa using h2

theorem takeWhileAppendAll {p : Char → Bool} {a b : Str}
    (h : ∀ x ∈ a, p x = true) :
    (a ++ b).takeWhile p = a ++ b.takeWhile p := by
  induction a with
  | nil => rfl
  | cons c t ih =>
    simp only [List.cons_append, List.takeWhile_cons, h c (List.mem_cons_self c t),
      if_true]
    rw [ih (fun x hx => h x (List.mem_cons_of_mem c hx))]

theorem takeWhileConsFalse {p : Char → Bool} {c : Char} {t : Str}
    (h : p c = false) : (c :: t).takeWhile p = [] := by
  simp [List.takeWhile_cons, h]

theorem headNotOfDropWhileEq {p : Char → Bool} {c : Char} {t : Str}
    (h : (c :: t).dropWhile p = c :: t) : p c = false := by
  by_contra hc
  rw [Bool.not_eq_false] at hc
  rw [List.dropWhile_cons, if_pos hc] at h
  have hlen := congrArg List.length h
  have hle := (List.dropWhile_suffix (l := t) p).length_le
  simp only [List.length_cons] at hlen
  omega

theorem pyStripPad {d spl spr : Str}
    (h1 : d.dropWhile isPySpace = d)
    (h2 : d.reverse.dropWhile isPySpace = d.reverse)
    (hl : ∀ x ∈ spl, isPySpace x = true)
    (hr : ∀ x ∈ spr, isPySpace x = true) :
    pyStrip (spl ++ d ++ spr) = d := by
  unfold pyStrip
  rw [List.append_assoc, dropWhileAppendAll hl]
  rcases d with _ | ⟨c, t⟩
  · rw [List.nil_append, dropWhileAllTrue hr]
    rfl
  · have hc : isPySpace c = false := headNotOfDropWhileEq h1
    rw [List.cons_append, dropWhileConsFalse hc, ← List.cons_append,
      List.reverse_append, dropWhileAppendAll (fun x hx => hr x (by simpa using hx)),
      h2, List.reverse_reverse]

theorem splitOnCharNotMem {sep : Char} {a : Str} (h : sep ∉ a) :
    splitOnChar sep a = [a] := by
  induction a with
  | nil => rfl
  | cons c t ih =>
    have hc : ¬(c = sep) := fun he => h (he ▸ List.mem_cons_self c t)
    rw [splitOnChar, if_neg hc, ih (fun hm => h (List.mem_cons_of_mem c hm))]

theorem splitOnCharAppend {sep : Char} {a b : Str} (h : sep ∉ a) :
    splitOnChar sep (a ++ sep :: b) = a :: splitOnChar sep b := by
  induction a with
  | nil => simp [splitOnChar]
  | cons c t ih =>
    have hc : ¬(c = sep) := fun he => h (he ▸ List.mem_cons_self c t)
    rw [List.cons_append, splitOnChar, if_neg hc,
      ih (fun hm => h (List.mem_cons_of_mem c hm))]

theorem digitNotSpace {c : Char} (h : isDigitCh c = true) : isPySpace c = false := by
  have h2 := of_decide_eq_true h
  rcases h2 with rfl | rfl | rfl | rfl | rfl | rfl | rfl | rfl | rfl | rfl <;> rfl

theorem digitNotSlash {c : Char} (h : isDigitCh c = true) : ¬(c = '/') := by
  have h2 := of_decide_eq_true h
  rcases h2 with rfl | rfl | rfl | rfl | rfl | rfl | rfl | rfl | rfl | rfl <;> decide

theorem spaceNotDigit {c : Char} (h : isPySpace c = true) : isDigitCh c = false := by
  have h2 := of_decide_eq_true h
  rcases h2 with rfl | rfl | rfl | rfl | rfl | rfl <;> rfl

theorem spaceNotSlash {c : Char} (h : isPySpace c = true) : ¬(c = '/') := by
  have h2 := of_decide_eq_true h
  rcases h2 with rfl | rfl | rfl | rfl | rfl | rfl <;> decide

theorem notMemOfAllNe {c : Char} {l : Str} (h : ∀ x ∈ l, ¬(x = c)) : c ∉ l :=
  fun hm => h c hm rfl

/-- C1: for every well-formed metadata string of the shape
`D / Y / R min / F` — a `/`-free stripped director field, a four-digit
year field, a runtime field of digits, optional whitespace and the literal
`min`, and a non-empty `/`-free stripped format field — `parse_metadata`
returns exactly `(D, int(Y), int(R), F)`, with an empty director field
mapped to `none` rather than an error. -/
theorem parse_metadata_wellformed_spec
    (d : Str) (y1 y2 y3 y4 : Char) (r sp f : Str)
    (hd1 : d.dropWhile isPySpace = d)
    (hd2 : d.reverse.dropWhile isPySpace = d.reverse)
    (hds : ¬('/' ∈ d))
    (hy1 : isDigitCh y1 = true) (hy2 : isDigitCh y2 = true)
    (hy3 : isDigitCh y3 = true) (hy4 : isDigitCh y4 = true)
    (hr0 : r ≠ []) (hrd : ∀ c ∈ r, isDigitCh c = true)
    (hsp : ∀ c ∈ sp, isPySpace c = true)
    (hf0 : f ≠ []) (hfs : ¬('/' ∈ f))
    (hf1 : f.dropWhile isPySpace = f)
    (hf2 : f.reverse.dropWhile isPySpace = f.reverse) :
    parse_metadata ((d ++ [' ']) ++ '/' ::
        ((' ' :: ([y1, y2, y3, y4] ++ [' '])) ++ '/' ::
          ((' ' :: (r ++ sp ++ ['m', 'i', 'n', ' '])) ++ '/' :: (' ' :: f)))) =
      ((if d = [] then none else some d),
        some (digitsToNat [y1, y2, y3, y4]),
        some (digitsToNat r),
        some f) := by
  have hone : ∀ x ∈ ([' '] : Str), isPySpace x = true := by
    intro x hx
    simp only [List.mem_singleton] at hx
    subst hx; rfl
  have h0 : '/' ∉ (d ++ [' ']) := by
    apply notMemOfAllNe
    intro x hx
    rcases List.mem_append.1 hx with h | h
    · exact fun he => hds (he ▸ h)
    · simp only [List.mem_singleton] at h
      subst h; decide
  have h1 : '/' ∉ (' ' :: ([y1, y2, y3, y4] ++ [' '])) := by
    apply notMemOfAllNe
    intro x hx
    rcases List.mem_cons.1 hx with rfl | hx
    · decide
    rcases List.mem_append.1 hx with hx | hx
    · simp only [List.mem_cons, List.not_mem_nil, or_false] at hx
      rcases hx with rfl | rfl | rfl | rfl
      · exact digitNotSlash hy1
      · exact digitNotSlash hy2
      · exact digitNotSlash hy3
      · exact digitNotSlash hy4
    · simp only [List.mem_singleton] at hx
      subst hx; decide
  have h2 : '/' ∉ (' ' :: (r ++ sp ++ ['m', 'i', 'n', ' '])) := by
    apply notMemOfAllNe
    intro x hx
    rcases List.mem_cons.1 hx with rfl | hx
    · decide
    rcases List.mem_append.1 hx with hx | hx
    · rcases List.mem_append.1 hx with hx | hx
      · exact digitNotSlash (hrd x hx)
      · exact spaceNotSlash (hsp x hx)
    · simp only [List.mem_cons, List.not_mem_nil, or_false] at hx
      rcases hx with rfl | rfl | rfl | rfl <;> decide
  have h3 : '/' ∉ (' ' :: f) := by
    apply notMemOfAllNe
    intro x hx
    rcases List.mem_cons.1 hx with rfl | hx
    · decide
    · exact fun he => hfs (he ▸ hx)
  have hsplit : splitOnChar '/'
      ((d ++ [' ']) ++ '/' ::
        ((' ' :: ([y1, y2, y3, y4] ++ [' '])) ++ '/' ::
          ((' ' :: (r ++ sp ++ ['m', 'i', 'n', ' '])) ++ '/' :: (' ' :: f)))) =
      [(d ++ [' ']), (' ' :: ([y1, y2, y3, y4] ++ [' '])),
        (' ' :: (r ++ sp ++ ['m', 'i', 'n', ' '])), (' ' :: f)] := by
    rw [splitOnCharAppend h0, splitOnCharAppend h1, splitOnCharAppend h2,
      splitOnCharNotMem h3]
  have e0 : pyStrip (d ++ [' ']) = d := by
    have := @pyStripPad _ [] [' '] hd1 hd2 (by intro x hx; cases hx) hone
    simpa using this
  have e1 : pyStrip (' ' :: ([y1, y2, y3, y4] ++ [' '])) = [y1, y2, y3, y4] := by
    have hy1' : ([y1, y2, y3, y4] : Str).dropWhile isPySpace = [y1, y2, y3, y4] :=
      dropWhileConsFalse (digitNotSpace hy1)
    have hy2' : ([y1, y2, y3, y4] : Str).reverse.dropWhile isPySpace =
        ([y1, y2, y3, y4] : Str).reverse := by
      have hrev : ([y1, y2, y3, y4] : Str).reverse = [y4, y3, y2, y1] := by simp
      rw [hrev]
      exact dropWhileConsFalse (digitNotSpace hy4)
    have := @pyStripPad _ [' '] [' '] hy1' hy2' hone hone
    simpa using this
  obtain ⟨rc, rt, rfl⟩ : ∃ rc rt, r = rc :: rt := by
    rcases r with _ | ⟨rc, rt⟩
    · exact absurd rfl hr0
    · exact ⟨rc, rt, rfl⟩
  have hrc : isDigitCh rc = true := hrd rc (List.mem_cons_self rc rt)
  have e2 : pyStrip (' ' :: ((rc :: rt) ++ sp ++ ['m', 'i', 'n', ' '])) =
      (rc :: rt) ++ sp ++ ['m', 'i', 'n'] := by
    have hx1 : ((rc :: rt) ++ sp ++ ['m', 'i', 'n'] : Str).dropWhile isPySpace =
        (rc :: rt) ++ sp ++ ['m', 'i', 'n'] := by
      simp only [List.cons_append]
      exact dropWhileConsFalse (digitNotSpace hrc)
    have hx2 : ((rc :: rt) ++ sp ++ ['m', 'i', 'n'] : Str).reverse.dropWhile isPySpace =
        ((rc :: rt) ++ sp ++ ['m', 'i', 'n'] : Str).reverse := by
      rw [List.reverse_append]
      have hm : (['m', 'i', 'n'] : Str).reverse = ['n', 'i', 'm'] := by simp
      rw [hm]
      exact dropWhileConsFalse (by decide)
    have := @pyStripPad _ [' '] [' '] hx1 hx2 hone hone
    have hshape : ([' '] : Str) ++ ((rc :: rt) ++ sp ++ ['m', 'i', 'n']) ++ [' '] =
        ' ' :: ((rc :: rt) ++ sp ++ ['m', 'i', 'n', ' ']) := by
      simp
    rw [hshape] at this
    exact this
  have e3 : pyStrip (' ' :: f) = f := by
    have := @pyStripPad _ [' '] [] hf1 hf2 hone (by intro x hx; cases hx)
    simpa using this
  have eyear : searchYearAux none [y1, y2, y3, y4] =
      some (digitsToNat [y1, y2, y3, y4]) := by
    simp [searchYearAux, nonWordBefore, nonWordAfter, hy1, hy2, hy3, hy4]
  have ert : searchRuntime ((rc :: rt) ++ sp ++ ['m', 'i', 'n']) =
      some (digitsToNat (rc :: rt)) := by
    have hshape : ((rc :: rt) ++ sp ++ ['m', 'i', 'n'] : Str) =
        rc :: (rt ++ (sp ++ ['m', 'i', 'n'])) := by simp
    rw [hshape]
    have hdrop : (rc :: (rt ++ (sp ++ ['m', 'i', 'n']))).dropWhile isDigitCh =
        sp ++ ['m', 'i', 'n'] := by
      have : (rc :: (rt ++ (sp ++ ['m', 'i', 'n'])) : Str) =
          (rc :: rt) ++ (sp ++ ['m', 'i', 'n']) := by simp
      rw [this, dropWhileAppendAll hrd]
      rcases sp with _ | ⟨s, st⟩
      · exact dropWhileConsFalse (by decide)
      · exact dropWhileConsFalse (spaceNotDigit (hsp s (List.mem_cons_self s st)))
    have htake : (rc :: (rt ++ (sp ++ ['m', 'i', 'n']))).takeWhile isDigitCh =
        rc :: rt := by
      have : (rc :: (rt ++ (sp ++ ['m', 'i', 'n'])) : Str) =
          (rc :: rt) ++ (sp ++ ['m', 'i', 'n']) := by simp
      rw [this, takeWhileAppendAll hrd]
      have hz : ((sp ++ ['m', 'i', 'n'] : Str)).takeWhile isDigitCh = [] := by
        rcases sp with _ | ⟨s, st⟩
        · exact takeWhileConsFalse (by decide)
        · exact takeWhileConsFalse (spaceNotDigit (hsp s (List.mem_cons_self s st)))
      rw [hz, List.append_nil]
    have hws : ((sp ++ ['m', 'i', 'n'] : Str)).dropWhile isPySpace = ['m', 'i', 'n'] := by
      rw [dropWhileAppendAll hsp]
      exact dropWhileConsFalse (by decide)
    simp only [searchRuntime, hrc, if_true, hdrop, hws, htake]
    rfl
  unfold parse_metadata
  simp only [hsplit, List.map, e0, e1, e2, e3, List.head?, List.get?, eyear, ert]
  rw [if_neg hf0]

/-- Witness for C1 at the spec's own example: parsing
`" / 1932 / 73min / DCP"` yields `(None, 1932, 73, "DCP")`, the empty
director field mapping to `none`. -/
theorem parse_metadata_wellformed_spec_witness :
    parse_metadata (" / 1932 / 73min / DCP".data) =
      (none, some 1932, some 73, some ("DCP".data)) := by
  have h := parse_metadata_wellformed_spec [] '1' '9' '3' '2' ['7', '3'] []
    ("DCP".data) (by decide) (by decide) (by decide) (by decide) (by decide)
    (by decide) (by decide) (by decide) (by decide) (by decide) (by decide)
    (by decide) (by decide) (by decide)
  exact h

theorem parseTimeHead_sound {s t rest : Str}
    (h : parseTimeHead s = some (t, rest)) :
    s = t ++ rest ∧ (∃ c1 tl, t = c1 :: tl ∧ isDigitCh c1 = true) ∧
      (∃ cl, t.getLast? = some cl ∧ isDigitCh cl = true) := by
  match s with
  | [] => exact Option.noConfusion h
  | [c] => exact Option.noConfusion h
  | c1 :: c2 :: r0 =>
    rw [parseTimeHead.eq_def] at h
    simp only at h
    split_ifs at h with hd1 hcolon hd2
    · split at h
      next m1 m2 rest2 =>
        split_ifs at h with hmm
        rw [Bool.and_eq_true] at hmm
        injection h with h1
        injection h1 with ht hrest
        subst hcolon
        refine ⟨by rw [← ht, ← hrest]; rfl, ⟨c1, _, by rw [← ht], hd1⟩,
          ⟨m2, by rw [← ht]; rfl, hmm.2⟩⟩
      next => exact Option.noConfusion h
    · split at h
      next m1 m2 rest2 =>
        split_ifs at h with hmm
        rw [Bool.and_eq_true] at hmm
        injection h with h1
        injection h1 with ht hrest
        refine ⟨by rw [← ht, ← hrest]; rfl, ⟨c1, _, by rw [← ht], hd1⟩,
          ⟨m2, by rw [← ht]; rfl, hmm.2⟩⟩
      next => exact Option.noConfusion h

theorem parseTagTail_sound {rest : Str} {tagOpt : Option Str}
    (h : parseTagTail rest = some tagOpt) :
    (rest = [] ∧ tagOpt = none) ∨
      (∃ inner, rest = '(' :: (inner ++ [')']) ∧ tagOpt = some inner) := by
  rw [parseTagTail.eq_def] at h
  split at h
  · left
    injection h with h1
    exact ⟨rfl, h1.symm⟩
  · next r =>
    right
    split_ifs at h with he hc
    injection h with h1
    subst h1
    refine ⟨r.takeWhile (fun c => !decide (c = ')')), ?_, rfl⟩
    have hr : r.takeWhile (fun c => !decide (c = ')')) ++ [')'] = r := by
      conv_rhs => rw [← List.takeWhile_append_dropWhile
        (p := fun c => !decide (c = ')')) (l := r)]
      rw [hc]
    exact congrArg (fun l => '(' :: l) hr.symm
  · exact Option.noConfusion h

/-- C3: for every input string matching the time-and-tag pattern —
a `H:MM` or `HH:MM` time `t` followed by an optional parenthesized tag —
`parse_time_and_tags` returns the time substring `t` unchanged, the tag
list `[TAG]` when the tag is present and `[]` when absent, and the tag as
the notes value when present. -/
theorem parse_time_and_tags_match_spec (s t rest : Str) (tagOpt : Option Str)
    (h1 : parseTimeHead s = some (t, rest))
    (h2 : parseTagTail rest = some tagOpt) :
    parse_time_and_tags s =
      (some t, (match tagOpt with | some tg => [tg] | none => []), tagOpt) := by
  obtain ⟨hs, ⟨c1, tl, ht, hc1⟩, ⟨cl, hlast, hcl⟩⟩ := parseTimeHead_sound h1
  have hstrip : pyStrip s = s := by
    unfold pyStrip
    have hlead : s.dropWhile isPySpace = s := by
      rw [hs, ht]
      exact dropWhileConsFalse (digitNotSpace hc1)
    rw [hlead]
    have htail : s.reverse.dropWhile isPySpace = s.reverse := by
      rcases parseTagTail_sound h2 with ⟨hrest, _⟩ | ⟨inner, hrest, _⟩
      · subst hrest
        rw [hs, List.append_nil]
        have hhead : t.reverse.head? = some cl := by
          rw [List.head?_reverse]
          exact hlast
        rcases hrev : t.reverse with _ | ⟨x, xs⟩
        · rfl
        · rw [hrev] at hhead
          injection hhead with hx
          subst hx
          exact dropWhileConsFalse (digitNotSpace hcl)
      · rw [hs, hrest]
        rw [List.reverse_append, List.reverse_cons, List.reverse_append]
        simp only [List.reverse_singleton, List.append_assoc, List.singleton_append]
        exact dropWhileConsFalse (by decide)
    rw [htail, List.reverse_reverse]
  unfold parse_time_and_tags
  simp only [hstrip, h1, h2]
  cases tagOpt <;> rfl

/-- Witness for C3: `"2:45(OC)"` parses to time `"2:45"`, tags `["OC"]`
and notes `"OC"`. -/
theorem parse_time_and_tags_match_spec_witness :
    parseTimeHead ("2:45(OC)".data) = some ("2:45".data, "(OC)".data) ∧
    parse_time_and_tags ("2:45(OC)".data) =
      (some ("2:45".data), [("OC".data)], some ("OC".data)) := by
  refine ⟨by decide, ?_⟩
  have h := parse_time_and_tags_match_spec ("2:45(OC)".data) ("2:45".data)
    ("(OC)".data) (some ("OC".data)) (by decide) (by decide)
  exact h

/-- C4 counterexample: the input `" 2:45 "` does not match the
time-and-tag pattern, yet `parse_time_and_tags` returns a time for it
rather than `(none, [], raw)`, because the implementation strips the raw
string first; likewise a non-matching input with surrounding whitespace
has its notes value stripped, not preserved unchanged. -/
theorem parse_time_and_tags_nonmatch_cex :
    matchesTimeTag (" 2:45 ".data) = false ∧
    parse_time_and_tags (" 2:45 ".data) = (some ("2:45".data), [], none) ∧
    matchesTimeTag ("  odd slot  ".data) = false ∧
    parse_time_and_tags ("  odd slot  ".data) = (none, [], some ("odd slot".data)) := by
  refine ⟨by decide, by decide, by decide, by decide⟩

/-- C4 amended: for every input string whose *stripped* form does not
match the time-and-tag pattern, `parse_time_and_tags` returns no time, an
empty tag list, and the *stripped* original string as the notes value. -/
theorem parse_time_and_tags_nonmatch_amended (s : Str)
    (h : matchesTimeTag (pyStrip s) = false) :
    parse_time_and_tags s = (none, [], some (pyStrip s)) := by
  unfold matchesTimeTag at h
  unfold parse_time_and_tags
  cases hh : parseTimeHead (pyStrip s) with
  | none => simp only [hh]
  | some pr =>
    obtain ⟨t, rest⟩ := pr
    rw [hh] at h
    simp only at h
    cases ht : parseTagTail rest with
    | none => simp only [hh, ht]
    | some tg =>
      rw [ht] at h
      simp at h

/-- Witness for the amended C4 at the non-matching input `"noon"`. -/
theorem parse_time_and_tags_nonmatch_amended_witness :
    matchesTimeTag (pyStrip ("noon".data)) = false ∧
    parse_time_and_tags ("noon".data) = (none, [], some (pyStrip ("noon".data))) := by
  refine ⟨by decide, parse_time_and_tags_nonmatch_amended ("noon".data) (by decide)⟩

theorem mkDate_eq_some {y m d : Nat} (h1 : 1 ≤ y) (h2 : y ≤ 9999) (h3 : 1 ≤ m)
    (h4 : m ≤ 12) (h5 : 1 ≤ d) (h6 : d ≤ daysInMonth y m) :
    mkDate y m d = some ⟨y, m, d⟩ := by
  unfold mkDate
  rw [if_pos]
  exact ⟨h1, h2, h3, h4, h5, h6⟩

theorem daysInMonth_ge_28 (y m : Nat) : 28 ≤ daysInMonth y m := by
  unfold daysInMonth
  split_ifs <;> omega

theorem inferAuxLength {ds : List Nat} : ∀ {y m : Nat} {p : Option Nat}
    {res : List PyDate}, inferAux y m p ds = some res → res.length = ds.length := by
  induction ds with
  | nil =>
    intro y m p res h
    simp only [inferAux] at h
    injection h with h1
    rw [← h1]
    rfl
  | cons d t ih =>
    intro y m p res h
    simp only [inferAux] at h
    cases hmk : mkDate (inferStep y m p d).1 (inferStep y m p d).2 d with
    | none => rw [hmk] at h; exact Option.noConfusion h
    | some dt =>
      rw [hmk] at h
      cases hrec : inferAux (inferStep y m p d).1 (inferStep y m p d).2 (some d) t with
      | none => rw [hrec] at h; exact Option.noConfusion h
      | some l =>
        rw [hrec] at h
        injection h with h1
        rw [← h1, List.length_cons, List.length_cons, ih hrec]

/-- C2 counterexample: the day number 30 is between 1 and 31, yet for the
reference date 2025-02-15 the code evaluates `date(2025, 2, 30)`, which
raises `ValueError` (modelled as `none`) — `infer_week_dates` does not
return a sequence of the input's length for every such input. -/
theorem infer_week_dates_invalid_date_cex :
    (1 ≤ 30 ∧ 30 ≤ 31) ∧ infer_week_dates [30] ⟨2025, 2, 15⟩ = none := by
  exact ⟨by decide, by decide⟩

/-- C2 amended: `infer_week_dates` follows the claimed cursor algorithm
whenever every emitted `(year, month, day)` triple is a valid calendar
date, and raises `ValueError` otherwise.  Concretely: the empty input
yields the empty output; whenever the function returns a sequence it has
the input's length; and for `[29, 30, 31, 1, 2]` with a reference date in
a 31-day month (year below the `datetime` maximum) the dates roll over
exactly once at the 31-to-1 transition, advancing the cursor by one month
and wrapping the year at December. -/
theorem infer_week_dates_amended :
    (∀ today : PyDate, infer_week_dates [] today = some []) ∧
    (∀ (days : List Nat) (today : PyDate) (res : List PyDate),
      infer_week_dates days today = some res → res.length = days.length) ∧
    (∀ y m d : Nat, 1 ≤ y → y ≤ 9998 → 1 ≤ m → m ≤ 12 →
      daysInMonth y m = 31 →
      infer_week_dates [29, 30, 31, 1, 2] ⟨y, m, d⟩ =
        some [⟨y, m, 29⟩, ⟨y, m, 30⟩, ⟨y, m, 31⟩,
          ⟨(stepCursor y m).1, (stepCursor y m).2, 1⟩,
          ⟨(stepCursor y m).1, (stepCursor y m).2, 2⟩]) := by
  refine ⟨fun today => rfl, ?_, ?_⟩
  · intro days today res h
    unfold infer_week_dates at h
    cases days with
    | nil =>
      injection h with h1
      rw [← h1]
      rfl
    | cons d t => exact inferAuxLength h
  · intro y m d hy1 hy2 hm1 hm2 h31
    have e29 : mkDate y m 29 = some ⟨y, m, 29⟩ :=
      mkDate_eq_some hy1 (by omega) hm1 hm2 (by omega) (by rw [h31]; omega)
    have e30 : mkDate y m 30 = some ⟨y, m, 30⟩ :=
      mkDate_eq_some hy1 (by omega) hm1 hm2 (by omega) (by rw [h31]; omega)
    have e31 : mkDate y m 31 = some ⟨y, m, 31⟩ :=
      mkDate_eq_some hy1 (by omega) hm1 hm2 (by omega) (by rw [h31])
    by_cases he : m = 12
    · subst he
      have e1 : mkDate (y + 1) 1 1 = some ⟨y + 1, 1, 1⟩ :=
        mkDate_eq_some (by omega) (by omega) (by omega) (by omega) (by omega)
          (by have := daysInMonth_ge_28 (y + 1) 1; omega)
      have e2 : mkDate (y + 1) 1 2 = some ⟨y + 1, 1, 2⟩ :=
        mkDate_eq_some (by omega) (by omega) (by omega) (by omega) (by omega)
          (by have := daysInMonth_ge_28 (y + 1) 1; omega)
      simp [infer_week_dates, inferAux, inferStep, stepCursor, e29, e30, e31, e1, e2]
    · have hstep : stepCursor y m = (y, m + 1) := by
        unfold stepCursor
        rw [if_neg he]
      have e1 : mkDate y (m + 1) 1 = some ⟨y, m + 1, 1⟩ :=
        mkDate_eq_some hy1 (by omega) (by omega) (by omega) (by omega)
          (by have := daysInMonth_ge_28 y (m + 1); omega)
      have e2 : mkDate y (m + 1) 2 = some ⟨y, m + 1, 2⟩ :=
        mkDate_eq_some hy1 (by omega) (by omega) (by omega) (by omega)
          (by have := daysInMonth_ge_28 y (m + 1); omega)
      simp [infer_week_dates, inferAux, inferStep, hstep, e29, e30, e31, e1, e2]

/-- Witness for the amended C2 at December 2025: the inferred dates for
`[29, 30, 31, 1, 2]` wrap into January 2026. -/
theorem infer_week_dates_amended_witness :
    daysInMonth 2025 12 = 31 ∧
    infer_week_dates [29, 30, 31, 1, 2] ⟨2025, 12, 15⟩ =
      some [⟨2025, 12, 29⟩, ⟨2025, 12, 30⟩, ⟨2025, 12, 31⟩,
        ⟨2026, 1, 1⟩, ⟨2026, 1, 2⟩] := by
  refine ⟨by decide, ?_⟩
  have h := infer_week_dates_amended.2.2 2025 12 15 (by decide) (by decide)
    (by decide) (by decide) (by decide)
  exact h

/-- C5 counterexample: neither pipeline implements the claimed three-tier
fallback.  For the URL `https://metrograph.com/film/abc` with title
`Some Film`, the spec's chain yields the path slug `abc`, but the
Metrograph code skips the slug tier and derives `some-film` from the
title; for the URL `u` with title `T`, the spec's chain yields the
normalized title `t`, but the Film Forum code never consults the title
and normalizes the URL to `u`. -/
theorem film_id_three_tier_cex :
    metrograph_film_id ("https://metrograph.com/film/abc".data) ("Some Film".data) =
      ("some-film".data) ∧
    specThreeTierFilmId ("https://metrograph.com/film/abc".data) ("Some Film".data) =
      ("abc".data) ∧
    ¬("some-film".data : Str) = ("abc".data) ∧
    slug_from_url ("u".data) = ("u".data) ∧
    specThreeTierFilmId ("u".data) ("T".data) = ("t".data) ∧
    ¬("u".data : Str) = ("t".data) := by
  exact ⟨by decide, by decide, by decide, by decide, by decide, by decide⟩

/-- C5 amended: identifier derivation is deterministic, but each pipeline
implements a two-tier fallback: Metrograph takes the `vista_film_id` URL
parameter and otherwise falls back directly to the normalized title (never
a URL path slug), while Film Forum takes the `/film/` path segment and
otherwise falls back to the normalized URL (never the title). -/
theorem film_id_two_tier_amended (url title : Str) :
    metrograph_film_id url title =
      ((searchVista url).getD (slugifyTitle title)) ∧
    slug_from_url url =
      (((searchFilmSlug url).map pyStrip).getD (slugifyUrlFF url)) := by
  constructor
  · unfold metrograph_film_id
    cases searchVista url <;> rfl
  · unfold slug_from_url
    cases searchFilmSlug url <;> rfl

/-- C6 counterexample: the Metrograph pipeline has no fallback at all —
its fetch (src/fetch_metrograph.py lines 44-49) is wrapped in no
try/except, so with a prior output file present a fetch failure still
exits non-zero, where the claim demands exit code 0. -/
theorem metrograph_fetch_failure_cex :
    metrograph_main { fetch := none, priorExists := true } = .fatal ∧
    (metrograph_main { fetch := none, priorExists := true }).exitZero = false := by
  exact ⟨rfl, rfl⟩

/-- C6 amended: only the Film Forum pipeline implements the
last-known-good policy — on fetch failure it exits 0 and leaves the prior
file untouched when one exists, and fails fatally otherwise; the
Metrograph pipeline treats a fetch failure as fatal regardless of any
prior output, writing nothing. -/
theorem fetch_failure_fallback_amended (prior : Bool) (today : PyDate) :
    filmforum_main { fetch := none, priorExists := prior, today := today } =
      (if prior then .softKeepPrior else .fatal) ∧
    (filmforum_main { fetch := none, priorExists := prior, today := today }).wroteFile =
      false ∧
    metrograph_main { fetch := none, priorExists := prior } = .fatal ∧
    (metrograph_main { fetch := none, priorExists := prior }).wroteFile = false := by
  refine ⟨rfl, ?_, rfl, rfl⟩
  cases prior <;> rfl

theorem foldlInv {σ α : Type} (P : σ → Prop) (f : σ → α → σ)
    (hstep : ∀ st a, P st → P (f st a)) :
    ∀ (l : List α) (st : σ), P st → P (l.foldl f st) := by
  intro l
  induction l with
  | nil => intro st h; exact h
  | cons a t ih => intro st h; exact ih (f st a) (hstep st a h)

theorem alookup_upsert {β : Type} (k k' : Str) (v : β) (m : List (Str × β)) :
    alookup k' (upsert k v m) = if k' = k then some v else alookup k' m := by
  induction m with
  | nil =>
    simp only [upsert, alookup]
    by_cases h : k = k'
    · rw [if_pos h, if_pos h.symm]
    · rw [if_neg h, if_neg (fun he => h he.symm)]
  | cons a t ih =>
    obtain ⟨ak, av⟩ := a
    by_cases ha : ak = k
    · subst ha
      simp only [upsert, if_pos rfl, alookup]
      by_cases hk : ak = k'
      · rw [if_pos hk, if_pos hk.symm]
      · rw [if_neg hk, if_neg (fun he => hk he.symm), if_neg hk]
    · simp only [upsert, if_neg ha, alookup, ih]
      by_cases hak : ak = k'
      · have : ¬(k' = k) := fun he => ha (hak.trans he)
        rw [if_pos hak, if_neg this, if_pos hak]
      · rw [if_neg hak, if_neg hak]

theorem alookup_append_single {β : Type} (k k' : Str) (v : β)
    (m : List (Str × β)) :
    alookup k' (m ++ [(k, v)]) =
      match alookup k' m with
      | some w => some w
      | none => if k = k' then some v else none := by
  induction m with
  | nil => rfl
  | cons a t ih =>
    obtain ⟨ak, av⟩ := a
    by_cases hak : ak = k'
    · simp only [List.cons_append, alookup, if_pos hak]
    · simp only [List.cons_append, alookup, if_neg hak]
      exact ih

theorem alookup_insertIfAbsent {β : Type} (k k' : Str) (v : β)
    (m : List (Str × β)) :
    alookup k' (insertIfAbsent k v m) =
      if k' = k then
        (match alookup k m with | some w => some w | none => some v)
      else alookup k' m := by
  unfold insertIfAbsent
  cases hm : alookup k m with
  | some w =>
    simp only [hm, Option.isSome_some, if_true]
    by_cases hk : k' = k
    · subst hk
      rw [if_pos rfl, hm]
    · rw [if_neg hk]
  | none =>
    simp only [hm, Option.isSome_none, Bool.false_eq_true, if_false,
      alookup_append_single]
    by_cases hk : k' = k
    · subst hk
      rw [hm, if_pos rfl]
    · cases hm' : alookup k' m with
      | some w => rw [if_neg hk]
      | none => rw [if_neg (fun he => hk he.symm), if_neg hk]

theorem alookup_foldl_upsert {β : Type} (occs : List (Str × β)) :
    ∀ (m : List (Str × β)) (k : Str),
      alookup k (occs.foldl (fun acc p => upsert p.1 p.2 acc) m) =
        match occs.reverse.find? (fun p => decide (p.1 = k)) with
        | some p => some p.2
        | none => alookup k m := by
  induction occs with
  | nil => intro m k; rfl
  | cons a t ih =>
    intro m k
    rw [List.foldl_cons, ih, List.reverse_cons, List.find?_append]
    cases hf : t.reverse.find? (fun p => decide (p.1 = k)) with
    | some p => rfl
    | none =>
      show alookup k (upsert a.1 a.2 m) = _
      rw [Option.none_or, alookup_upsert]
      by_cases hk : a.1 = k
      · have hfa : List.find? (fun p => decide (p.1 = k)) [a] = some a :=
          List.find?_cons_of_pos _ (by rw [hk]; simp)
        rw [hfa, if_pos hk.symm]
      · have hfa : List.find? (fun p => decide (p.1 = k)) [a] = none := by
          rw [List.find?_cons_of_neg _ (by simpa using hk)]
          rfl
        rw [hfa, if_neg (fun he => hk he.symm)]

theorem alookup_foldl_insertIfAbsent {β : Type} (occs : List (Str × β)) :
    ∀ (m : List (Str × β)) (k : Str),
      alookup k (occs.foldl (fun acc p => insertIfAbsent p.1 p.2 acc) m) =
        match alookup k m with
        | some w => some w
        | none => (occs.find? (fun p => decide (p.1 = k))).map (fun p => p.2) := by
  induction occs with
  | nil =>
    intro m k
    cases h : alookup k m with
    | some w => simp [h]
    | none => simp [h]
  | cons a t ih =>
    intro m k
    rw [List.foldl_cons, ih, alookup_insertIfAbsent]
    by_cases hk : k = a.1
    · rw [if_pos hk, hk]
      cases hm : alookup a.1 m with
      | some w => rfl
      | none =>
        have hfa : List.find? (fun p => decide (p.1 = a.1)) (a :: t) = some a :=
          List.find?_cons_of_pos _ (by simp)
        rw [hfa]
        rfl
    · rw [if_neg hk]
      have hfa : List.find? (fun p => decide (p.1 = k)) (a :: t) =
          List.find? (fun p => decide (p.1 = k)) t := by
        rw [List.find?_cons_of_neg _ (by simpa using fun he => hk he.symm)]
      rw [hfa]

theorem mem_keys_iff_alookup {β : Type} (k : Str) (m : List (Str × β)) :
    (alookup k m).isSome = true ↔ k ∈ m.map Prod.fst := by
  induction m with
  | nil =>
    show (none : Option β).isSome = true ↔ k ∈ ([] : List Str)
    simp
  | cons a t ih =>
    obtain ⟨ak, av⟩ := a
    show (if ak = k then some av else alookup k t).isSome = true ↔
      k ∈ ak :: t.map Prod.fst
    by_cases h : ak = k
    · rw [if_pos h]
      simp only [Option.isSome_some, List.mem_cons]
      constructor
      · intro _
        exact Or.inl h.symm
      · intro _
        trivial
    · rw [if_neg h, ih]
      simp only [List.mem_cons]
      constructor
      · intro hm
        exact Or.inr hm
      · rintro (he | hm)
        · exact absurd he.symm h
        · exact hm

theorem upsert_cons_pos {β : Type} {ak k : Str} (av v : β) (t : List (Str × β))
    (h : ak = k) : upsert k v ((ak, av) :: t) = (k, v) :: t := by
  simp only [upsert]
  rw [if_pos h]

theorem upsert_cons_neg {β : Type} {ak k : Str} (av v : β) (t : List (Str × β))
    (h : ¬(ak = k)) : upsert k v ((ak, av) :: t) = (ak, av) :: upsert k v t := by
  simp only [upsert]
  rw [if_neg h]

theorem mem_keys_upsert {β : Type} (x k : Str) (v : β) (m : List (Str × β)) :
    x ∈ (upsert k v m).map Prod.fst ↔ x = k ∨ x ∈ m.map Prod.fst := by
  induction m with
  | nil =>
    show x ∈ [(k, v)].map Prod.fst ↔ _
    simp only [List.map_cons, List.map_nil, List.mem_singleton,
      List.not_mem_nil, or_false]
  | cons a t ih =>
    obtain ⟨ak, av⟩ := a
    by_cases h : ak = k
    · rw [upsert_cons_pos av v t h]
      simp only [List.map_cons, List.mem_cons]
      constructor
      · rintro (he | hm)
        · exact Or.inl he
        · exact Or.inr (Or.inr hm)
      · rintro (he | he | hm)
        · exact Or.inl he
        · exact Or.inl (by rw [he, h])
        · exact Or.inr hm
    · rw [upsert_cons_neg av v t h]
      simp only [List.map_cons, List.mem_cons, ih]
      exact or_left_comm

theorem nodup_keys_upsert {β : Type} (k : Str) (v : β) (m : List (Str × β))
    (h : (m.map Prod.fst).Nodup) : ((upsert k v m).map Prod.fst).Nodup := by
  induction m with
  | nil =>
    show ([(k, v)].map Prod.fst).Nodup
    simp
  | cons a t ih =>
    obtain ⟨ak, av⟩ := a
    simp only [List.map_cons, List.nodup_cons] at h
    by_cases ha : ak = k
    · rw [upsert_cons_pos av v t ha]
      simp only [List.map_cons, List.nodup_cons]
      exact ⟨ha ▸ h.1, h.2⟩
    · rw [upsert_cons_neg av v t ha]
      simp only [List.map_cons, List.nodup_cons]
      refine ⟨?_, ih h.2⟩
      rw [mem_keys_upsert]
      rintro (he | hmem)
      · exact ha he
      · exact h.1 hmem

theorem nodup_keys_insertIfAbsent {β : Type} (k : Str) (v : β)
    (m : List (Str × β)) (h : (m.map Prod.fst).Nodup) :
    ((insertIfAbsent k v m).map Prod.fst).Nodup := by
  unfold insertIfAbsent
  split
  · exact h
  · next hin =>
    have hk : k ∉ m.map Prod.fst := by
      intro hm
      exact hin ((mem_keys_iff_alookup k m).2 hm)
    rw [List.map_append]
    simp [List.nodup_append, h, hk]

/-- The film-record occurrence contributed by one Metrograph item: `none`
when the item has no title anchor. -/
def mgItemOcc (item : MGItem) : Option (Str × MGFilm) :=
  match item.titleA with
  | none => none
  | some a => some (mgFilmOf item a)

/-- The film-record occurrences of one Metrograph day, in item order:
empty for days failing the id guard and for closed days. -/
def mgDayOccs (d : MGDay) : List (Str × MGFilm) :=
  match mgDayGuard d with
  | none => []
  | some _ =>
    if ("closed".data) ∈ d.classes then []
    else d.items.filterMap mgItemOcc

/-- All film-record occurrences of a Metrograph run, in traversal order. -/
def mgFilmOccs : List MGDay → List (Str × MGFilm)
  | [] => []
  | d :: t => mgDayOccs d ++ mgFilmOccs t

theorem mgProcessItem_films (dateStr : Str) (st : MGState) (item : MGItem) :
    (mgProcessItem dateStr st item).films =
      match mgItemOcc item with
      | none => st.films
      | some p => upsert p.1 p.2 st.films := by
  unfold mgProcessItem mgItemOcc
  cases item.titleA <;> rfl

theorem mgFoldItems_films (dateStr : Str) (items : List MGItem) :
    ∀ st : MGState, ((items.foldl (mgProcessItem dateStr) st).films) =
      (items.filterMap mgItemOcc).foldl (fun acc p => upsert p.1 p.2 acc) st.films := by
  induction items with
  | nil => intro st; rfl
  | cons i t ih =>
    intro st
    rw [List.foldl_cons, ih, List.filterMap_cons]
    cases h : mgItemOcc i with
    | none => rw [mgProcessItem_films, h]
    | some p => rw [List.foldl_cons, mgProcessItem_films, h]

theorem mgProcessDay_films (st : MGState) (d : MGDay) :
    (mgProcessDay st d).films =
      (mgDayOccs d).foldl (fun acc p => upsert p.1 p.2 acc) st.films := by
  cases hg : mgDayGuard d with
  | none => simp [mgProcessDay, mgDayOccs, hg]
  | some ds =>
    by_cases hc : ("closed".data) ∈ d.classes
    · simp [mgProcessDay, mgDayOccs, hg, hc]
    · simp [mgProcessDay, mgDayOccs, hg, hc, mgFoldItems_films]

theorem mgAssembleCore_films (days : List MGDay) :
    ∀ st : MGState, ((days.foldl mgProcessDay st).films) =
      (mgFilmOccs days).foldl (fun acc p => upsert p.1 p.2 acc) st.films := by
  induction days with
  | nil => intro st; rfl
  | cons d t ih =>
    intro st
    rw [List.foldl_cons, ih, mgFilmOccs, List.foldl_append, mgProcessDay_films]

/-- The film-record occurrence contributed by one Film Forum row: `none`
when the row is skipped (no anchor, empty href, or no spans). -/
def ffRowOcc (row : FFRow) : Option (Str × FFFilm) :=
  match row.strong with
  | none => none
  | some strg =>
    match strg.a with
    | none => none
    | some a =>
      if pyStrip (a.href.getD []) = [] then none
      else if row.spans.isEmpty then none
      else
        some (slug_from_url (ffDetailUrl (pyStrip (a.href.getD []))),
          { title := clean_title a.text, director := none, year := none,
            runtime := none, format := none, poster_url := none,
            detail_url := ffDetailUrl (pyStrip (a.href.getD [])) })

/-- All film-record occurrences of a Film Forum run, in traversal order. -/
def ffFilmOccs : List (FFPanel × PyDate) → List (Str × FFFilm)
  | [] => []
  | pr :: t => pr.1.rows.filterMap ffRowOcc ++ ffFilmOccs t

theorem ffProcessRow_films (pd : PyDate) (st : FFState) (row : FFRow) :
    (ffProcessRow pd st row).films =
      match ffRowOcc row with
      | none => st.films
      | some p => insertIfAbsent p.1 p.2 st.films := by
  obtain ⟨strong, spans⟩ := row
  cases strong with
  | none => rfl
  | some strg =>
    obtain ⟨aopt⟩ := strg
    cases aopt with
    | none => rfl
    | some a =>
      by_cases h1 : pyStrip (a.href.getD []) = []
      · simp [ffProcessRow, ffRowOcc, h1]
      · by_cases h2 : (spans : List Str).isEmpty
        · simp [ffProcessRow, ffRowOcc, h1, h2]
        · simp [ffProcessRow, ffRowOcc, h1, h2]

theorem ffFoldRows_films (pd : PyDate) (rows : List FFRow) :
    ∀ st : FFState, ((rows.foldl (ffProcessRow pd) st).films) =
      (rows.filterMap ffRowOcc).foldl
        (fun acc p => insertIfAbsent p.1 p.2 acc) st.films := by
  induction rows with
  | nil => intro st; rfl
  | cons r t ih =>
    intro st
    rw [List.foldl_cons, ih, List.filterMap_cons]
    cases h : ffRowOcc r with
    | none => rw [ffProcessRow_films, h]
    | some p => rw [List.foldl_cons, ffProcessRow_films, h]

theorem ffAssembleCore_films (pairs : List (FFPanel × PyDate)) :
    ∀ st : FFState, ((pairs.foldl ffProcessPanel st).films) =
      (ffFilmOccs pairs).foldl (fun acc p => insertIfAbsent p.1 p.2 acc) st.films := by
  induction pairs with
  | nil => intro st; rfl
  | cons pr t ih =>
    intro st
    rw [List.foldl_cons, ih, ffFilmOccs, List.foldl_append]
    unfold ffProcessPanel
    rw [ffFoldRows_films]

/-- A Metrograph day on which the same film (same derived identifier)
appears twice with different metadata years. -/
def mgDupDay : MGDay :=
  { idAttr := "calendar-list-day-2025-01-01".data,
    classes := [("calendar-list-day".data)],
    dayText := [],
    items := [
      { titleA := some { href := none, text := "Same Film".data },
        posterSrc := none,
        metaText := some ("X / 2001 / 90min / DCP".data),
        descText := none, showtimes := [] },
      { titleA := some { href := none, text := "Same Film".data },
        posterSrc := none,
        metaText := some ("X / 2002 / 90min / DCP".data),
        descText := none, showtimes := [] } ] }

/-- C7 counterexample: in the Metrograph assembler the film dict entry is
overwritten on every occurrence (src/fetch_metrograph.py line 114), so
with two occurrences of the same film the surviving record carries the
second occurrence's year 2002, not the first occurrence's 2001 as the
claim requires. -/
theorem metrograph_first_wins_cex :
    ((alookup ("same-film".data) (mgAssemble [mgDupDay]).films).map
      (fun f => f.year)) = some (some 2002) ∧
    ¬(((alookup ("same-film".data) (mgAssemble [mgDupDay]).films).map
      (fun f => f.year)) = some (some 2001)) := by
  exact ⟨by decide, by decide⟩

/-- C7 amended: each pipeline keeps at most one Film record per film_id
(the key lists are duplicate-free) and resolves repeats deterministically,
but the two assemblers differ: Film Forum keeps the first occurrence's
descriptive fields, while Metrograph overwrites and keeps the last
occurrence's fields. -/
theorem film_dedup_amended (days : List MGDay) (pairs : List (FFPanel × PyDate)) :
    ((mgAssemble days).films.map Prod.fst).Nodup ∧
    ((ffAssemble pairs).films.map Prod.fst).Nodup ∧
    (∀ fid, alookup fid (mgAssemble days).films =
      ((mgFilmOccs days).reverse.find? (fun p => decide (p.1 = fid))).map
        (fun p => p.2)) ∧
    (∀ fid, alookup fid (ffAssemble pairs).films =
      ((ffFilmOccs pairs).find? (fun p => decide (p.1 = fid))).map
        (fun p => p.2)) := by
  have hmg : (mgAssemble days).films =
      (mgFilmOccs days).foldl (fun acc p => upsert p.1 p.2 acc) [] :=
    mgAssembleCore_films days ⟨[], []⟩
  have hff : (ffAssemble pairs).films =
      (ffFilmOccs pairs).foldl (fun acc p => insertIfAbsent p.1 p.2 acc) [] :=
    ffAssembleCore_films pairs ⟨[], []⟩
  refine ⟨?_, ?_, ?_, ?_⟩
  · rw [hmg]
    exact foldlInv (fun m => (m.map Prod.fst).Nodup)
      (fun acc p => upsert p.1 p.2 acc)
      (fun m p h => nodup_keys_upsert p.1 p.2 m h)
      (mgFilmOccs days) [] (by simp)
  · rw [hff]
    exact foldlInv (fun m => (m.map Prod.fst).Nodup)
      (fun acc p => insertIfAbsent p.1 p.2 acc)
      (fun m p h => nodup_keys_insertIfAbsent p.1 p.2 m h)
      (ffFilmOccs pairs) [] (by simp)
  · intro fid
    rw [hmg, alookup_foldl_upsert]
    cases (mgFilmOccs days).reverse.find? (fun p => decide (p.1 = fid)) <;> rfl
  · intro fid
    rw [hff, alookup_foldl_insertIfAbsent]
    cases (ffFilmOccs pairs).find? (fun p => decide (p.1 = fid)) <;> rfl

theorem isSome_alookup_upsert {β : Type} (k k' : Str) (v : β)
    (m : List (Str × β)) (h : (alookup k' m).isSome = true) :
    (alookup k' (upsert k v m)).isSome = true := by
  rw [alookup_upsert]
  by_cases hk : k' = k
  · rw [if_pos hk]
    rfl
  · rw [if_neg hk]
    exact h

theorem isSome_alookup_upsert_self {β : Type} (k : Str) (v : β)
    (m : List (Str × β)) : (alookup k (upsert k v m)).isSome = true := by
  rw [alookup_upsert, if_pos rfl]
  rfl

theorem isSome_alookup_insertIfAbsent {β : Type} (k k' : Str) (v : β)
    (m : List (Str × β)) (h : (alookup k' m).isSome = true) :
    (alookup k' (insertIfAbsent k v m)).isSome = true := by
  rw [alookup_insertIfAbsent]
  by_cases hk : k' = k
  · rw [if_pos hk]
    cases alookup k m <;> rfl
  · rw [if_neg hk]
    exact h

theorem isSome_alookup_insertIfAbsent_self {β : Type} (k : Str) (v : β)
    (m : List (Str × β)) : (alookup k (insertIfAbsent k v m)).isSome = true := by
  rw [alookup_insertIfAbsent, if_pos rfl]
  cases alookup k m <;> rfl

/-- Referential completeness invariant for the Metrograph state. -/
def mgRefOk (st : MGState) : Prop :=
  ∀ s ∈ st.screenings, ∀ fid : Str, s.film_id = some fid →
    (alookup fid st.films).isSome = true

theorem mgProcessItem_refOk (dateStr : Str) (st : MGState) (item : MGItem)
    (h : mgRefOk st) : mgRefOk (mgProcessItem dateStr st item) := by
  obtain ⟨ta, ps, mt, dt, sts⟩ := item
  cases ta with
  | none => exact h
  | some a =>
    intro s hs fid hfid
    simp only [mgProcessItem] at hs ⊢
    rcases List.mem_append.1 hs with hold | hnew
    · exact isSome_alookup_upsert _ _ _ _ (h s hold fid hfid)
    · obtain ⟨stx, _, heq⟩ := List.mem_map.1 hnew
      have hfi : s.film_id =
          some (mgFilmOf ⟨some a, ps, mt, dt, sts⟩ a).1 := by
        rw [← heq]
        rfl
      rw [hfi] at hfid
      injection hfid with hfid2
      rw [← hfid2]
      exact isSome_alookup_upsert_self _ _ _

theorem mgProcessDay_refOk (st : MGState) (d : MGDay) (h : mgRefOk st) :
    mgRefOk (mgProcessDay st d) := by
  cases hg : mgDayGuard d with
  | none =>
    unfold mgProcessDay
    rw [hg]
    exact h
  | some ds =>
    have hred : mgProcessDay st d =
        (if ("closed".data) ∈ d.classes then
          { st with screenings := st.screenings ++ [mgClosedRecord ds d.dayText] }
        else d.items.foldl (mgProcessItem ds) st) := by
      unfold mgProcessDay
      rw [hg]
    rw [hred]
    by_cases hc : ("closed".data) ∈ d.classes
    · rw [if_pos hc]
      intro s hs fid hfid
      rcases List.mem_append.1 hs with hold | hnew
      · exact h s hold fid hfid
      · rw [List.mem_singleton] at hnew
        rw [hnew] at hfid
        exact Option.noConfusion hfid
    · rw [if_neg hc]
      exact foldlInv mgRefOk (mgProcessItem ds)
        (fun st2 it h2 => mgProcessItem_refOk ds st2 it h2) d.items st h

/-- Referential completeness invariant for the Film Forum state. -/
def ffRefOk (st : FFState) : Prop :=
  ∀ s ∈ st.screenings, (alookup s.film_id st.films).isSome = true

theorem ffProcessRow_refOk (pd : PyDate) (st : FFState) (row : FFRow)
    (h : ffRefOk st) : ffRefOk (ffProcessRow pd st row) := by
  obtain ⟨strong, spans⟩ := row
  cases strong with
  | none => exact h
  | some strg =>
    obtain ⟨aopt⟩ := strg
    cases aopt with
    | none => exact h
    | some a =>
      have hred : ffProcessRow pd st ⟨some ⟨some a⟩, spans⟩ =
          (if pyStrip (a.href.getD []) = [] then st
          else if (spans : List Str).isEmpty then st
          else
            { films := insertIfAbsent
                (slug_from_url (ffDetailUrl (pyStrip (a.href.getD []))))
                { title := clean_title a.text, director := none, year := none,
                  runtime := none, format := none, poster_url := none,
                  detail_url := ffDetailUrl (pyStrip (a.href.getD [])) } st.films,
              screenings := st.screenings ++
                ffRowScreenings pd
                  (slug_from_url (ffDetailUrl (pyStrip (a.href.getD [])))) spans }) :=
        rfl
      rw [hred]
      by_cases h1 : pyStrip (a.href.getD []) = []
      · rw [if_pos h1]
        exact h
      · by_cases h2 : (spans : List Str).isEmpty
        · rw [if_neg h1, if_pos h2]
          exact h
        · rw [if_neg h1, if_neg h2]
          intro s hs
          simp only at hs ⊢
          rcases List.mem_append.1 hs with hold | hnew
          · exact isSome_alookup_insertIfAbsent _ _ _ _ (h s hold)
          · obtain ⟨sp, _, heq⟩ := List.mem_filterMap.1 hnew
            have hfi : s.film_id =
                slug_from_url (ffDetailUrl (pyStrip (a.href.getD []))) := by
              cases hp : parse_time_and_tags sp with
              | mk t rest =>
                rw [hp] at heq
                obtain ⟨tags, note⟩ := rest
                cases t with
                | none => exact Option.noConfusion heq
                | some tv =>
                  injection heq with heq2
                  rw [← heq2]
            rw [hfi]
            exact isSome_alookup_insertIfAbsent_self _ _ _

/-- C8: in both pipelines, every `film_id` referenced by a screening
record has a corresponding entry in the output `films` map (referential
completeness). -/
theorem referential_completeness_spec :
    (∀ (days : List MGDay) (s : MGScreening),
      s ∈ (mgAssemble days).screenings → ∀ fid : Str, s.film_id = some fid →
        (alookup fid (mgAssemble days).films).isSome = true) ∧
    (∀ (pairs : List (FFPanel × PyDate)) (s : FFScreening),
      s ∈ (ffAssemble pairs).screenings →
        (alookup s.film_id (ffAssemble pairs).films).isSome = true) := by
  constructor
  · intro days
    exact foldlInv mgRefOk mgProcessDay
      (fun st d h => mgProcessDay_refOk st d h) days ⟨[], []⟩
      (fun s hs => absurd hs (List.not_mem_nil s))
  · intro pairs
    have hpanel : ∀ (st : FFState) (pr : FFPanel × PyDate), ffRefOk st →
        ffRefOk (ffProcessPanel st pr) := by
      intro st pr h
      exact foldlInv ffRefOk (ffProcessRow pr.2)
        (fun st2 r h2 => ffProcessRow_refOk pr.2 st2 r h2) pr.1.rows st h
    exact foldlInv ffRefOk ffProcessPanel hpanel pairs ⟨[], []⟩
      (fun s hs => absurd hs (List.not_mem_nil s))

/-- The title anchor of the concrete Metrograph witness day. -/
def mgWitAnchor : HtmlAnchor :=
  { href := some ("/x?vista_film_id=77".data), text := "Tenebre".data }

/-- A concrete Metrograph day with one film and one showtime. -/
def mgWitDay : MGDay :=
  { idAttr := "calendar-list-day-2025-01-01".data,
    classes := [("calendar-list-day".data)],
    dayText := [],
    items := [
      { titleA := some mgWitAnchor,
        posterSrc := none,
        metaText := none,
        descText := none,
        showtimes := [{ text := "7:00pm".data, classes := [], href := none }] } ] }

/-- The screening record the Metrograph assembler produces for
`mgWitDay`. -/
def mgWitScreening : MGScreening :=
  { theater_id := "metrograph".data, date := "2025-01-01".data,
    time := some ("7:00pm".data), status := "available".data,
    ticket_url := none, film_id := some ("77".data), notes := none,
    note := none }

/-- The title anchor of the concrete Film Forum witness row. -/
def ffWitAnchor : HtmlAnchor :=
  { href := some ("/film/le-cercle-rouge".data), text := "Le Cercle Rouge".data }

/-- The single row of the concrete Film Forum witness panel. -/
def ffWitRow : FFRow :=
  { strong := some { a := some ffWitAnchor }, spans := [("12:30".data)] }

/-- A concrete Film Forum panel with one row and one time span. -/
def ffWitPanel : FFPanel :=
  { comments := [("19".data)], rows := [ffWitRow] }

/-- The screening record the Film Forum assembler produces for
`ffWitPanel` on 2025-09-19. -/
def ffWitScreening : FFScreening :=
  { theater_id := "filmforum".data, date := "2025-09-19".data,
    time := "12:30".data, status := "available".data, ticket_url := none,
    film_id := "le-cercle-rouge".data, notes := none, tags := none }

/-- Witness for C8 on concrete runs of both assemblers. -/
theorem referential_completeness_spec_witness :
    (alookup ("77".data) (mgAssemble [mgWitDay]).films).isSome = true ∧
    (alookup ("le-cercle-rouge".data)
      (ffAssemble [(ffWitPanel, ⟨2025, 9, 19⟩)]).films).isSome = true := by
  have hscr1 : (mgAssemble [mgWitDay]).screenings = [mgWitScreening] := by decide
  have hscr2 : (ffAssemble [(ffWitPanel, ⟨2025, 9, 19⟩)]).screenings =
      [ffWitScreening] := by decide
  constructor
  · exact referential_completeness_spec.1 [mgWitDay] mgWitScreening
      (by rw [hscr1]; exact List.mem_singleton.2 rfl) ("77".data) (by decide)
  · exact referential_completeness_spec.2 [(ffWitPanel, ⟨2025, 9, 19⟩)]
      ffWitScreening (by rw [hscr2]; exact List.mem_singleton.2 rfl)

/-- The closed-day record a Metrograph day contributes: `none` for days
that fail the id guard or are not marked closed. -/
def mgClosedOf (d : MGDay) : Option MGScreening :=
  match mgDayGuard d with
  | none => none
  | some ds =>
    if ("closed".data) ∈ d.classes then some (mgClosedRecord ds d.dayText)
    else none

theorem mgScreeningOf_status_ne (dateStr fid : Str) (notes : Option Str)
    (stx : MGSt) :
    ¬((mgScreeningOf dateStr fid notes stx).status = ("closed".data)) := by
  unfold mgScreeningOf
  by_cases hso : ("sold_out".data) ∈ stx.classes
  · rw [if_pos hso]
    show ¬(("sold_out".data : Str) = ("closed".data))
    decide
  · rw [if_neg hso]
    show ¬(("available".data : Str) = ("closed".data))
    decide

theorem mgFoldItems_filterClosed (dateStr : Str) (items : List MGItem) :
    ∀ st : MGState,
      ((items.foldl (mgProcessItem dateStr) st).screenings).filter
        (fun s => decide (s.status = ("closed".data))) =
      (st.screenings).filter (fun s => decide (s.status = ("closed".data))) := by
  induction items with
  | nil => intro st; rfl
  | cons i t ih =>
    intro st
    rw [List.foldl_cons, ih]
    obtain ⟨ta, ps, mt, dt, sts⟩ := i
    cases ta with
    | none => rfl
    | some a =>
      show ((st.screenings ++ _).filter _) = _
      rw [List.filter_append]
      have hnil : (sts.map (mgScreeningOf dateStr
          (mgFilmOf ⟨some a, ps, mt, dt, sts⟩ a).1 dt)).filter
            (fun s => decide (s.status = ("closed".data))) = [] := by
        rw [List.filter_eq_nil_iff]
        intro x hx
        obtain ⟨stx, _, heq⟩ := List.mem_map.1 hx
        rw [← heq]
        simp only [decide_eq_true_eq]
        exact mgScreeningOf_status_ne _ _ _ stx
      rw [hnil, List.append_nil]

theorem mgProcessDay_filterClosed (st : MGState) (d : MGDay) :
    ((mgProcessDay st d).screenings).filter
      (fun s => decide (s.status = ("closed".data))) =
    (st.screenings).filter (fun s => decide (s.status = ("closed".data))) ++
      (match mgClosedOf d with | none => [] | some r => [r]) := by
  cases hg : mgDayGuard d with
  | none =>
    unfold mgProcessDay mgClosedOf
    rw [hg]
    rw [List.append_nil]
  | some ds =>
    have hco : mgClosedOf d =
        (if ("closed".data) ∈ d.classes then some (mgClosedRecord ds d.dayText)
         else none) := by
      unfold mgClosedOf
      rw [hg]
    have hred : mgProcessDay st d =
        (if ("closed".data) ∈ d.classes then
          { st with screenings := st.screenings ++ [mgClosedRecord ds d.dayText] }
        else d.items.foldl (mgProcessItem ds) st) := by
      unfold mgProcessDay
      rw [hg]
    rw [hred, hco]
    by_cases hc : ("closed".data) ∈ d.classes
    · rw [if_pos hc, if_pos hc]
      show ((st.screenings ++ _).filter _) = _
      rw [List.filter_append]
      have hone : ([mgClosedRecord ds d.dayText].filter
          (fun s => decide (s.status = ("closed".data)))) =
          [mgClosedRecord ds d.dayText] := by
        rw [List.filter_singleton]
        have hdec : decide ((mgClosedRecord ds d.dayText).status =
            ("closed".data)) = true := by
          show decide (("closed".data : Str) = ("closed".data)) = true
          decide
        rw [hdec]
        rfl
      rw [hone]
    · rw [if_neg hc, if_neg hc, mgFoldItems_filterClosed, List.append_nil]

theorem mgAssembleCore_filterClosed (days : List MGDay) :
    ∀ st : MGState,
      (((days.foldl mgProcessDay st).screenings).filter
        (fun s => decide (s.status = ("closed".data)))) =
      (st.screenings).filter (fun s => decide (s.status = ("closed".data))) ++
        days.filterMap mgClosedOf := by
  induction days with
  | nil =>
    intro st
    rw [List.filterMap_nil, List.append_nil]
    rfl
  | cons d t ih =>
    intro st
    rw [List.foldl_cons, ih, mgProcessDay_filterClosed, List.filterMap_cons]
    cases mgClosedOf d with
    | none => rw [List.append_nil]
    | some r => rw [List.append_assoc, List.singleton_append]

theorem mgProcessDay_eq_some (st : MGState) (d : MGDay) (ds : Str)
    (hg : mgDayGuard d = some ds) :
    mgProcessDay st d =
      (if ("closed".data) ∈ d.classes then
        { st with screenings := st.screenings ++ [mgClosedRecord ds d.dayText] }
      else d.items.foldl (mgProcessItem ds) st) := by
  unfold mgProcessDay
  rw [hg]

/-- Field invariant of closed records in the Metrograph state. -/
def mgClosedFieldsOk (st : MGState) : Prop :=
  ∀ s ∈ st.screenings, s.status = ("closed".data) →
    s.film_id = none ∧ s.time = none ∧ s.ticket_url = none ∧
      s.note.isSome = true

theorem mgProcessItem_closedFields (dateStr : Str) (st : MGState)
    (item : MGItem) (h : mgClosedFieldsOk st) :
    mgClosedFieldsOk (mgProcessItem dateStr st item) := by
  obtain ⟨ta, ps, mt, dt, sts⟩ := item
  cases ta with
  | none => exact h
  | some a =>
    intro s hs hstat
    simp only [mgProcessItem] at hs
    rcases List.mem_append.1 hs with hold | hnew
    · exact h s hold hstat
    · obtain ⟨stx, _, heq⟩ := List.mem_map.1 hnew
      rw [← heq] at hstat
      exact absurd hstat (mgScreeningOf_status_ne _ _ _ stx)

theorem mgProcessDay_closedFields (st : MGState) (d : MGDay)
    (h : mgClosedFieldsOk st) : mgClosedFieldsOk (mgProcessDay st d) := by
  cases hg : mgDayGuard d with
  | none =>
    unfold mgProcessDay
    rw [hg]
    exact h
  | some ds =>
    rw [mgProcessDay_eq_some st d ds hg]
    by_cases hc : ("closed".data) ∈ d.classes
    · rw [if_pos hc]
      intro s hs hstat
      rcases List.mem_append.1 hs with hold | hnew
      · exact h s hold hstat
      · rw [List.mem_singleton] at hnew
        subst hnew
        exact ⟨rfl, rfl, rfl, rfl⟩
    · rw [if_neg hc]
      exact foldlInv mgClosedFieldsOk (mgProcessItem ds)
        (fun st2 it h2 => mgProcessItem_closedFields ds st2 it h2) d.items st h

/-- C9: the closed-status records of a Metrograph run are exactly one
synthetic record per closed day, carrying that day's closure note, and
every closed-status record carries no film_id, no time and no ticket_url
while carrying a note. -/
theorem closed_day_records_spec :
    (∀ days : List MGDay,
      ((mgAssemble days).screenings.filter
        (fun s => decide (s.status = ("closed".data)))) =
        days.filterMap mgClosedOf) ∧
    (∀ (days : List MGDay) (s : MGScreening),
      s ∈ (mgAssemble days).screenings → s.status = ("closed".data) →
        s.film_id = none ∧ s.time = none ∧ s.ticket_url = none ∧
          s.note.isSome = true) := by
  constructor
  · intro days
    have h := mgAssembleCore_filterClosed days ⟨[], []⟩
    simpa using h
  · intro days
    exact foldlInv mgClosedFieldsOk mgProcessDay
      (fun st d h => mgProcessDay_closedFields st d h) days ⟨[], []⟩
      (fun s hs => absurd hs (List.not_mem_nil s))

/-- A concrete closed Metrograph day. -/
def mgClosedWitDay : MGDay :=
  { idAttr := "calendar-list-day-2025-01-02".data,
    classes := [("calendar-list-day".data), ("closed".data)],
    dayText := "Closed today".data,
    items := [] }

/-- Witness for C9 at a concrete closed day: the run emits exactly the one
synthetic record, and its fields satisfy the closed-record invariant. -/
theorem closed_day_records_spec_witness :
    ((mgAssemble [mgClosedWitDay]).screenings.filter
      (fun s => decide (s.status = ("closed".data)))) =
      [mgClosedRecord ("2025-01-02".data) ("Closed today".data)] ∧
    ((mgClosedRecord ("2025-01-02".data) ("Closed today".data)).film_id = none ∧
      (mgClosedRecord ("2025-01-02".data) ("Closed today".data)).time = none ∧
      (mgClosedRecord ("2025-01-02".data) ("Closed today".data)).ticket_url = none ∧
      (mgClosedRecord ("2025-01-02".data) ("Closed today".data)).note.isSome = true) := by
  constructor
  · exact (closed_day_records_spec.1 [mgClosedWitDay]).trans (by decide)
  · have hscr : (mgAssemble [mgClosedWitDay]).screenings =
        [mgClosedRecord ("2025-01-02".data) ("Closed today".data)] := by decide
    exact closed_day_records_spec.2 [mgClosedWitDay]
      (mgClosedRecord ("2025-01-02".data) ("Closed today".data))
      (by rw [hscr]; exact List.mem_singleton.2 rfl) rfl

theorem ffProcessRow_eq (pd : PyDate) (st : FFState) (a : HtmlAnchor)
    (spans : List Str) :
    ffProcessRow pd st ⟨some ⟨some a⟩, spans⟩ =
      (if pyStrip (a.href.getD []) = [] then st
      else if spans.isEmpty then st
      else
        { films := insertIfAbsent
            (slug_from_url (ffDetailUrl (pyStrip (a.href.getD []))))
            { title := clean_title a.text, director := none, year := none,
              runtime := none, format := none, poster_url := none,
              detail_url := ffDetailUrl (pyStrip (a.href.getD [])) } st.films,
          screenings := st.screenings ++
            ffRowScreenings pd
              (slug_from_url (ffDetailUrl (pyStrip (a.href.getD [])))) spans }) :=
  rfl

/-- Status/ticket invariant of the Film Forum state. -/
def ffAvailOk (st : FFState) : Prop :=
  ∀ s ∈ st.screenings, s.status = ("available".data) ∧ s.ticket_url = none

theorem ffProcessRow_availOk (pd : PyDate) (st : FFState) (row : FFRow)
    (h : ffAvailOk st) : ffAvailOk (ffProcessRow pd st row) := by
  obtain ⟨strong, spans⟩ := row
  cases strong with
  | none => exact h
  | some strg =>
    obtain ⟨aopt⟩ := strg
    cases aopt with
    | none => exact h
    | some a =>
      rw [ffProcessRow_eq]
      by_cases h1 : pyStrip (a.href.getD []) = []
      · rw [if_pos h1]
        exact h
      · by_cases h2 : (spans : List Str).isEmpty
        · rw [if_neg h1, if_pos h2]
          exact h
        · rw [if_neg h1, if_neg h2]
          intro s hs
          simp only at hs
          rcases List.mem_append.1 hs with hold | hnew
          · exact h s hold
          · obtain ⟨sp, _, heq⟩ := List.mem_filterMap.1 hnew
            cases hp : parse_time_and_tags sp with
            | mk t rest =>
              rw [hp] at heq
              obtain ⟨tags, note⟩ := rest
              cases t with
              | none => exact Option.noConfusion heq
              | some tv =>
                injection heq with heq2
                rw [← heq2]
                exact ⟨rfl, rfl⟩

/-- C10: every screening record the Film Forum assembler produces has
status `available` and a null ticket_url; the pipeline never emits a
`sold_out` or `closed` screening and never attaches a ticket URL. -/
theorem filmforum_screenings_available_spec (pairs : List (FFPanel × PyDate))
    (s : FFScreening) (hs : s ∈ (ffAssemble pairs).screenings) :
    s.status = ("available".data) ∧ s.ticket_url = none ∧
      ¬(s.status = ("sold_out".data)) ∧ ¬(s.status = ("closed".data)) := by
  have hpanel : ∀ (st : FFState) (pr : FFPanel × PyDate), ffAvailOk st →
      ffAvailOk (ffProcessPanel st pr) := by
    intro st pr h
    exact foldlInv ffAvailOk (ffProcessRow pr.2)
      (fun st2 r h2 => ffProcessRow_availOk pr.2 st2 r h2) pr.1.rows st h
  have hmain := foldlInv ffAvailOk ffProcessPanel hpanel pairs ⟨[], []⟩
    (fun s2 hs2 => absurd hs2 (List.not_mem_nil s2))
  obtain ⟨h1, h2⟩ := hmain s hs
  refine ⟨h1, h2, ?_, ?_⟩
  · rw [h1]
    decide
  · rw [h1]
    decide

/-- Witness for C10 on a concrete Film Forum run. -/
theorem filmforum_screenings_available_spec_witness :
    ffWitScreening.status = ("available".data) ∧
      ffWitScreening.ticket_url = none ∧
      ¬(ffWitScreening.status = ("sold_out".data)) ∧
      ¬(ffWitScreening.status = ("closed".data)) := by
  have hscr : (ffAssemble [(ffWitPanel, ⟨2025, 9, 19⟩)]).screenings =
      [ffWitScreening] := by decide
  exact filmforum_screenings_available_spec [(ffWitPanel, ⟨2025, 9, 19⟩)]
    ffWitScreening (by rw [hscr]; exact List.mem_singleton.2 rfl)
